import Mathlib

/-!
Verification development for the mewc-table record-reconciliation and
event-segmentation core.

The Python sources are shallowly embedded as Lean definitions:

* a pandas `DataFrame` row becomes the structure `Row`; a table is a `List Row`
  in the frame's stable order;
* floats (`prob`, `conf`, thresholds) become rationals `ℚ`;
* timestamps that the code has already parsed become `Nat` values counting
  seconds, so that `time_diff > pd.Timedelta(minutes=m)` becomes a comparison
  with `m * 60`; textual timestamps (for the parsing stage itself) stay
  `String`;
* `sort_values(['camera_site', 'timestamp'])` becomes a stable insertion sort
  on the lexicographic key (the spec's data-model invariant states that ties
  are broken by original record order, i.e. a stable sort);
* fallible code (the `SanityCheckError` aborts) becomes `Except`.

Each embedded function carries a comment naming the Python source location it
was translated from.
-/

set_option autoImplicit false

namespace MewcTable

/-- DetectionRecord: one row of the consolidated species table
(columns per `src/3_update_output_table.py` `reconcile_table` and spec §3).
`event` is the per-site event id; `timestamp` is the parsed date-time in
seconds. -/
structure Row where
  camera_site : String
  filename : String
  rand_name : String
  class_id : Int
  class_name : String
  prob : ℚ
  conf : ℚ
  expert_updated : Int
  event : Nat
  timestamp : Nat
  deriving Repr, DecidableEq

/-- Sort key used by `sort_values(['camera_site', 'timestamp'])`
(`3_update_output_table.py` line 254, `2_create_table_and_animal_subfolders.py`
line 196). -/
def sortKey (r : Row) : String × Nat :=
  (r.camera_site, r.timestamp)

/-- Lexicographic order on the sort key: by `camera_site`, then `timestamp`.
String order is taken on the underlying character list (code-point
lexicographic, as in pandas). -/
def rowle (a b : Row) : Prop :=
  a.camera_site.data < b.camera_site.data ∨
    (a.camera_site = b.camera_site ∧ a.timestamp ≤ b.timestamp)

instance : DecidableRel rowle := fun a b => by
  unfold rowle; infer_instance

instance : IsTotal Row rowle where
  total a b := by
    rcases lt_trichotomy a.camera_site.data b.camera_site.data with h | h | h
    · exact Or.inl (Or.inl h)
    · rcases Nat.le_total a.timestamp b.timestamp with h' | h'
      · exact Or.inl (Or.inr ⟨String.ext h, h'⟩)
      · exact Or.inr (Or.inr ⟨(String.ext h).symm, h'⟩)
    · exact Or.inr (Or.inl h)

instance : IsTrans Row rowle where
  trans a b c hab hbc := by
    rcases hab with h₁ | ⟨h₁, h₁'⟩ <;> rcases hbc with h₂ | ⟨h₂, h₂'⟩
    · exact Or.inl (h₁.trans h₂)
    · exact Or.inl (h₂ ▸ h₁)
    · exact Or.inl (h₁ ▸ h₂)
    · exact Or.inr ⟨h₁.trans h₂, h₁'.trans h₂'⟩

/-- Stable chronological sort of the table by `(camera_site, timestamp)`.
Models `df.sort_values(['camera_site', 'timestamp'])`; the spec's §3 invariant
("ties broken by original record order (stable sort)") fixes the stable
reading. -/
def sortRows (df : List Row) : List Row :=
  df.insertionSort rowle

/-- Class-change trigger of the full Event Segmenter
(`2_create_table_and_animal_subfolders.py` lines 206-210): the class differs
from the previous row's class and neither is the `unknown_animal` sentinel. -/
def classChange (prev cur : Row) : Bool :=
  cur.class_name != prev.class_name &&
    cur.class_name != "unknown_animal" &&
    prev.class_name != "unknown_animal"

/-- Expert-update flag of the full Event Segmenter
(`2_create_table_and_animal_subfolders.py` lines 213-216).  Note that the code
computes it from the CURRENT row's `expert_updated` and `prob` (the columns are
not shifted), not from the previous row's. -/
def expertUpdateFlag (thresh : ℚ) (cur : Row) : Bool :=
  cur.expert_updated == 1 || (cur.expert_updated == 0 && decide (thresh < cur.prob))

/-- New-event rule of the full Event Segmenter
(`2_create_table_and_animal_subfolders.py` lines 219-222): a new event starts
when the gap to the previous row exceeds `interval_minutes`, or the class
changed and the (current-row) expert-update flag holds. -/
def newEventFull (intervalMinutes : Int) (thresh : ℚ) (prev cur : Row) : Bool :=
  decide ((cur.timestamp : Int) - (prev.timestamp : Int) > intervalMinutes * 60) ||
    (classChange prev cur && expertUpdateFlag thresh cur)

/-- New-event rule of the simplified (gap-only) Event Segmenter used by the
reconciliation passes (`3_update_output_table.py` line 259): only the time gap
counts. -/
def newEventGap (intervalMinutes : Int) (prev cur : Row) : Bool :=
  decide ((cur.timestamp : Int) - (prev.timestamp : Int) > intervalMinutes * 60)

/-- Per-site event counter walk over the chronologically sorted table
(`2_create_table_and_animal_subfolders.py` lines 230-242 and the
`cumsum() + 1` of `3_update_output_table.py` line 260).  After the sort the
sites are contiguous, so one pass tracking the previous row suffices: a row
of a new site restarts the counter at `firstEv` — the event id the mode
gives a site's first record — otherwise the rule decides whether the counter
advances. -/
def assignEventsGo (firstEv : Nat) (rule : Row → Row → Bool) :
    Row → Nat → List Row → List Row
  | _, _, [] => []
  | prev, curEv, r :: rs =>
    if r.camera_site = prev.camera_site then
      let ev := if rule prev r then curEv + 1 else curEv
      { r with event := ev } :: assignEventsGo firstEv rule r ev rs
    else
      { r with event := firstEv } :: assignEventsGo firstEv rule r firstEv rs

/-- Event assignment over a sorted table, parameterised by the event id of a
site's first row: the full mode masks `new_event` on the first snip of each
site (`is_first_snip`, `2_create_table_and_animal_subfolders.py` lines
225-228), so there `firstEv = 1`; the gap-only mode evaluates its rule on
the first row as well (`fillna` then `cumsum() + 1`,
`3_update_output_table.py` lines 258-260), see `firstEventGap`. -/
def assignEvents (firstEv : Nat) (rule : Row → Row → Bool) :
    List Row → List Row
  | [] => []
  | r :: rs =>
    { r with event := firstEv } :: assignEventsGo firstEv rule r firstEv rs

/-- Event id the gap-only mode gives the first record of a site:
`time_diff` is `NaT` there and `fillna` makes it 0, so `new_event` is
`Timedelta(0) > Timedelta(minutes=interval_minutes)` — true exactly when the
interval is negative — and `cumsum() + 1` then yields 2 instead of 1
(`3_update_output_table.py` lines 258-260). -/
def firstEventGap (intervalMinutes : Int) : Nat :=
  if decide ((0 : Int) > intervalMinutes * 60) then 2 else 1

/-- Full-mode Event Segmenter `determine_independent_events`
(`2_create_table_and_animal_subfolders.py` lines 163-251, identical logic in
`3_create_site-species_table.py` lines 159-247): sort chronologically per
site, then assign events with the gap-or-(class-change-and-flag) rule; the
`is_first_snip` mask forces each site's first record to event 1.  The
surrounding column checks and `date_time_orig` parsing are DataFrame plumbing;
the rows here carry the already-parsed timestamp. -/
def determine_independent_events (intervalMinutes : Int) (thresh : ℚ)
    (df : List Row) : List Row :=
  assignEvents 1 (newEventFull intervalMinutes thresh) (sortRows df)

/-- Gap-only event recalculation, the event-segmentation half of
`recalc_events_and_infer_unknowns` (`3_update_output_table.py` lines 250-260,
same lines 221-231 of `5_update_output_table.py`).  Unlike the full mode it
has no first-snip mask, so each site's first record gets
`firstEventGap intervalMinutes`. -/
def recalc_events (intervalMinutes : Int) (df : List Row) : List Row :=
  assignEvents (firstEventGap intervalMinutes) (newEventGap intervalMinutes)
    (sortRows df)

/-- Erase the event ids of a table (used to state idempotence of the
segmenter: re-run it on its own output "with the event ids stripped"). -/
def stripEvents (df : List Row) : List Row :=
  df.map fun r => { r with event := 0 }

/-! ### Unknown Resolver -/

/-- Maximum of a nonempty list of probabilities, 0 for the empty list
(models `Series.max()` and the value at `idxmax()`; the resolver only applies
it to nonempty groups). -/
def maxProbD : List ℚ → ℚ
  | [] => 0
  | p :: ps => ps.foldl max p

/-- Largest multiplicity occurring in a list of class names. -/
def maxCount (names : List String) : Nat :=
  (names.map fun s => names.count s).foldr max 0

/-- Code-point order on strings via the underlying character lists. -/
def strle (a b : String) : Prop :=
  a.data ≤ b.data

instance : DecidableRel strle := fun a b => by
  unfold strle; infer_instance

instance : IsTotal String strle :=
  ⟨fun a b => le_total a.data b.data⟩

instance : IsTrans String strle :=
  ⟨fun _ _ _ h h' => le_trans h h'⟩

/-- pandas `Series.mode()[0]`: among the values of maximal multiplicity,
`mode()` returns them sorted ascending, so `[0]` is the least such value in
string order. -/
def modeClass (names : List String) : String :=
  ((names.filter fun s => names.count s == maxCount names).insertionSort strle).headD ""

/-- Grouping key of the Unknown Resolver:
`groupby(['camera_site', 'event'])`. -/
def eventKey (r : Row) : String × Nat :=
  (r.camera_site, r.event)

/-- The confident rows of an event group: `class_name != 'unknown_animal'`
and `prob >= thresh` (`2_create_table_and_animal_subfolders.py` line 262,
`3_update_output_table.py` line 265). -/
def confidentRows (thresh : ℚ) (g : List Row) : List Row :=
  g.filter fun r => r.class_name != "unknown_animal" && decide (thresh ≤ r.prob)

/-- First occurrences of a list, keeping the order of first appearance
(pandas `unique()` / the group iteration key set). -/
def firstUniquesAux {α : Type} [DecidableEq α] (seen : List α) : List α → List α
  | [] => []
  | x :: xs =>
    if x ∈ seen then firstUniquesAux seen xs
    else x :: firstUniquesAux (x :: seen) xs

/-- First occurrences of a list in order of first appearance. -/
def firstUniques {α : Type} [DecidableEq α] (l : List α) : List α :=
  firstUniquesAux [] l

/-- Body of the per-group loop of the Unknown Resolver for one
`(camera_site, event)` key (`2_create_table_and_animal_subfolders.py`
lines 260-276; `3_update_output_table.py` lines 264-276): if the group has
confident rows, every `unknown_animal` row of the group gets the most
frequent confident class, a replacement probability, and the phase flag.
`useGroupMax` selects which maximum the phase takes: the whole group's
(`group.loc[group['prob'].idxmax(), 'prob']`, initial consolidation) or the
confident rows' (`valid_species['prob'].max()`, reconciliation). -/
def resolveGroup (flag : Int) (useGroupMax : Bool) (thresh : ℚ)
    (k : String × Nat) (df : List Row) : List Row :=
  let g := df.filter fun r => eventKey r == k
  let conf := confidentRows thresh g
  if conf.isEmpty then df
  else
    let repClass := modeClass (conf.map Row.class_name)
    let repProb :=
      if useGroupMax then maxProbD (g.map Row.prob) else maxProbD (conf.map Row.prob)
    df.map fun r =>
      if eventKey r == k && r.class_name == "unknown_animal" then
        { r with class_name := repClass, prob := repProb, expert_updated := flag }
      else r

/-- Unknown Resolver, initial-consolidation variant
`refine_unknown_animal_classifications`
(`2_create_table_and_animal_subfolders.py` lines 253-279): loop over the
`(camera_site, event)` groups, flag 2, replacement probability taken over the
whole group.  The groups are disjoint, so the iteration order over keys does
not affect the result. -/
def refine_unknown_animal_classifications (thresh : ℚ) (df : List Row) : List Row :=
  (firstUniques (df.map eventKey)).foldl
    (fun acc k => resolveGroup 2 true thresh k acc) df

/-- Unknown Resolver, reconciliation variant: the inference loop of
`recalc_events_and_infer_unknowns` (`3_update_output_table.py` lines 262-276,
`5_update_output_table.py` lines 233-248): flag 5, replacement probability
taken over the confident rows only (`valid_species['prob'].max()`). -/
def infer_unknowns_reconcile (thresh : ℚ) (df : List Row) : List Row :=
  (firstUniques (df.map eventKey)).foldl
    (fun acc k => resolveGroup 5 false thresh k acc) df

/-- Derived per-row description of the resolver (proved below to coincide
with the group-loop implementations): what one row becomes, in terms of its
own group in the ORIGINAL table. -/
def resolveRowSpec (flag : Int) (useGroupMax : Bool) (thresh : ℚ)
    (df : List Row) (r : Row) : Row :=
  let g := df.filter fun x => eventKey x == eventKey r
  let conf := confidentRows thresh g
  if r.class_name == "unknown_animal" && !conf.isEmpty then
    { r with
      class_name := modeClass (conf.map Row.class_name),
      prob := if useGroupMax then maxProbD (g.map Row.prob)
              else maxProbD (conf.map Row.prob),
      expert_updated := flag }
  else r

/-- The table with the per-row resolution applied exactly to the rows whose
`(camera_site, event)` key lies in `K` (the keys already processed by the
group loop); the invariant of the loop induction below. -/
def resolveMarked (flag : Int) (useGroupMax : Bool) (thresh : ℚ)
    (df : List Row) (K : List (String × Nat)) : List Row :=
  df.map fun r =>
    if eventKey r ∈ K then resolveRowSpec flag useGroupMax thresh df r else r

/-! ### Count Aggregator -/

/-- Grouping key of the `3_update_output_table.py` Count Aggregator:
`GROUP_COLS = ['camera_site', 'class_name', 'event', 'timestamp']`
(line 295). -/
def groupKey (r : Row) : String × String × Nat × Nat :=
  (r.camera_site, r.class_name, r.event, r.timestamp)

/-- Size of the group of a key in a table: `df.groupby(GROUP_COLS).size()`
at one key. -/
def countKey (df : List Row) (k : String × String × Nat × Nat) : Nat :=
  (df.filter fun r => groupKey r == k).length

/-- The rows of one camera site: `df[site_mask]`. -/
def siteRows (df : List Row) (site : String) : List Row :=
  df.filter fun r => r.camera_site == site

/-- `df[site_mask].groupby(GROUP_COLS).size()` at one key
(`3_update_output_table.py` line 314). -/
def countKeySite (df : List Row) (site : String)
    (k : String × String × Nat × Nat) : Nat :=
  countKey (siteRows df site) k

/-- One site's pass of the count-assignment loop
(`3_update_output_table.py` lines 309-325): walk the table; the first
occurrence of each group key among this site's rows receives that group's
size, later occurrences (the `duplicated` rows) keep their previous count. -/
def assignCountsSiteGo (df : List Row) (site : String)
    (seen : List (String × String × Nat × Nat)) :
    List (Row × Nat) → List (Row × Nat)
  | [] => []
  | (r, c) :: rest =>
    if r.camera_site == site then
      if groupKey r ∈ seen then (r, c) :: assignCountsSiteGo df site seen rest
      else (r, countKeySite df site (groupKey r)) ::
        assignCountsSiteGo df site (groupKey r :: seen) rest
    else (r, c) :: assignCountsSiteGo df site seen rest

/-- `df[~df.duplicated(GROUP_COLS)]` (`3_update_output_table.py` line 328):
keep only the first row of each group key. -/
def dedupByKeyGo (seen : List (String × String × Nat × Nat)) :
    List (Row × Nat) → List (Row × Nat)
  | [] => []
  | (r, c) :: rest =>
    if groupKey r ∈ seen then dedupByKeyGo seen rest
    else (r, c) :: dedupByKeyGo (groupKey r :: seen) rest

/-- Count Aggregator `count_animals_per_event`
(`3_update_output_table.py` lines 291-354): initialise `count = 1`, give the
first row of each group its group size site by site
(`df['camera_site'].unique()` iterates sites in first-appearance order), drop
duplicated rows, then recompute the original group sizes and compare them
with the recorded counts; any mismatch raises `SanityCheckError` (embedded as
`Except.error`), aborting the run. -/
def count_animals_per_event (df : List Row) :
    Except String (List (Row × Nat)) :=
  let withInit := df.map fun r => (r, 1)
  let counted := (firstUniques (df.map Row.camera_site)).foldl
    (fun acc site => assignCountsSiteGo df site [] acc) withInit
  let result := dedupByKeyGo [] counted
  if result.all (fun rc => countKey df (groupKey rc.1) == rc.2) then .ok result
  else .error "count mismatch in final verification"

/-- Grouping key of the `5_update_output_table.py` Count Aggregator
(line 274): `['camera_site', 'event', 'timestamp']` — no `class_name`. -/
def key3 (r : Row) : String × Nat × Nat :=
  (r.camera_site, r.event, r.timestamp)

/-- Sorted order on the legacy aggregator's group keys (pandas `groupby`
sorts the group keys). -/
def key3le (a b : String × Nat × Nat) : Prop :=
  a.1.data < b.1.data ∨
    (a.1 = b.1 ∧ (a.2.1 < b.2.1 ∨ (a.2.1 = b.2.1 ∧ a.2.2 ≤ b.2.2)))

instance : DecidableRel key3le := fun a b => by
  unfold key3le; infer_instance

/-- Positions and rows kept by `~df.duplicated([...])` for the legacy
aggregator (first occurrence of each `(camera_site, event, timestamp)` key),
together with their positional row label. -/
def keptWithIdx (seen : List (String × Nat × Nat)) :
    Nat → List Row → List (Nat × Row)
  | _, [] => []
  | i, r :: rs =>
    if key3 r ∈ seen then keptWithIdx seen (i + 1) rs
    else (i, r) :: keptWithIdx (key3 r :: seen) (i + 1) rs

/-- Legacy Count Aggregator `count_animals_per_event` of
`5_update_output_table.py` (lines 259-283).  `grouped = df.groupby([...])
.size().reset_index(name='dup_count')` holds the group sizes on a fresh
integer index `0..k-1` in sorted key order; the assignment
`df.loc[keep_mask, 'count'] = grouped['dup_count']` aligns on row labels, so
the kept row with positional label `i` receives `dup_count[i]` — `NaN`
(here `none`) when `i` is not a label of `grouped`.  No recheck is
performed. -/
def count_animals_per_event5 (df : List Row) : List (Row × Option Nat) :=
  let keys := (firstUniques (df.map key3)).insertionSort key3le
  let dupCount := keys.map fun k => (df.filter fun r => key3 r == k).length
  (keptWithIdx [] 0 df).map fun p => (p.2, dupCount[p.1]?)

/-- Sum of an aggregated table's `count` column; `none` (NaN) is absorbing,
as in float arithmetic. -/
def sumCounts (l : List (Row × Option Nat)) : Option Nat :=
  l.foldr
    (fun rc acc =>
      match rc.2, acc with
      | some c, some a => some (a + c)
      | _, _ => none)
    (some 0)

/-! ### Base filenames -/

/-- Python `str.split(sep)` for a one-character separator, on the character
list of the string: `n` separators yield `n + 1` (possibly empty) parts. -/
def splitOnChar (c : Char) : List Char → List (List Char)
  | [] => [[]]
  | x :: xs =>
    if x = c then [] :: splitOnChar c xs
    else
      match splitOnChar c xs with
      | [] => [[x]]
      | h :: t => (x :: h) :: t

/-- `create_base_filename` (`3_update_output_table.py` lines 76-87, identical
copies in `2_create_table_and_animal_subfolders.py` lines 298-310 and
`5_update_output_table.py` lines 52-63): split on `'.'`; a name without an
extension is returned unchanged; otherwise, if the stem (everything before
the last dot) contains a hyphen, drop everything from the stem's last hyphen
on (`name.rsplit('-', 1)[0]`) and re-attach the extension; otherwise return
the filename unchanged. -/
def create_base_filename (f : List Char) : List Char :=
  let parts := splitOnChar '.' f
  if parts.length < 2 then f
  else
    let answer := List.intercalate ['.'] parts.dropLast
    let ext := parts.getLastD []
    if answer.contains '-' then
      List.intercalate ['-'] (splitOnChar '-' answer).dropLast ++ '.' :: ext
    else f

/-- String-level wrapper of `create_base_filename`. -/
def baseFilename (s : String) : String :=
  ⟨create_base_filename s.data⟩

/-- Python `str.lower()`, character by character. -/
def lowerStr (s : String) : String :=
  ⟨s.data.map Char.toLower⟩

/-! ### CorrectionMap folder scan -/

/-- One image file met by the folder scan: the traversal of
`<camera_site>/animal/<class_name>/...` yields, in deterministic order, the
file's site, species folder, name and full path. -/
structure ScanEntry where
  camera_site : String
  class_name : String
  filename : String
  path : String
  deriving Repr, DecidableEq

/-- One reported conflict of `scan_animal_folders`
(`3_update_output_table.py` lines 57-62): the key plus the two candidate
classes and the two source file locations. -/
structure DupRecord where
  base : String
  site : String
  old_class : String
  new_class : String
  old_path : String
  new_path : String
  deriving Repr, DecidableEq

/-- Python-dict insertion that keeps the original position of an existing
key and overwrites its value. -/
def updateAssoc {K V : Type} [DecidableEq K] :
    List (K × V) → K → V → List (K × V)
  | [], k, v => [(k, v)]
  | (k', v') :: rest, k, v =>
    if k' = k then (k, v) :: rest else (k', v') :: updateAssoc rest k v

/-- Python-dict lookup. -/
def lookupAssoc {K V : Type} [DecidableEq K] : List (K × V) → K → Option V
  | [], _ => none
  | (k', v') :: rest, k => if k' = k then some v' else lookupAssoc rest k

/-- Key of the correction map in `3_update_output_table.py` line 53-54:
`(create_base_filename(file.name).lower(), camera_site)`. -/
def scanKey (e : ScanEntry) : String × String :=
  (lowerStr (baseFilename e.filename), e.camera_site)

/-- Fold of `scan_animal_folders` (`3_update_output_table.py` lines 37-65):
for each file, if its key is already mapped to a DIFFERENT class, record a
duplicate `(base, site, old_class, new_class, old_path, new_path)`; in all
cases the later entry overwrites the mapping. -/
def scan_animal_folders_go :
    List ScanEntry → List ((String × String) × (String × String × String)) →
    List DupRecord →
    List ((String × String) × (String × String × String)) × List DupRecord
  | [], m, d => (m, d)
  | e :: es, m, d =>
    let k := scanKey e
    let d' :=
      match lookupAssoc m k with
      | some (oldPath, _, oldCls) =>
        if oldCls ≠ e.class_name then
          d ++ [⟨k.1, k.2, oldCls, e.class_name, oldPath, e.path⟩]
        else d
      | none => d
    scan_animal_folders_go es
      (updateAssoc m k (e.path, e.camera_site, e.class_name)) d'

/-- `scan_animal_folders` of `3_update_output_table.py` (lines 30-74): build
the `(base_filename, camera_site) -> (path, camera_site, class_name)`
mapping; if any duplicates across species folders were recorded, print them
all and raise `SanityCheckError` (embedded as `Except.error` carrying the
full duplicate listing). -/
def scan_animal_folders (entries : List ScanEntry) :
    Except (List DupRecord)
      (List ((String × String) × (String × String × String))) :=
  let md := scan_animal_folders_go entries [] []
  if md.2.isEmpty then .ok md.1 else .error md.2

/-- Key of the legacy correction map in `5_update_output_table.py` line 47-48:
`(create_base_filename(file.name), camera_site)` — no lower-casing. -/
def scanKey5 (e : ScanEntry) : String × String :=
  (baseFilename e.filename, e.camera_site)

/-- Legacy `scan_animal_folders` of `5_update_output_table.py` (lines 32-50):
a plain dict fold — `file_mapping[(base_filename, camera_site)] = (file,
camera_site, class_name)` — with no duplicate tracking: a key met twice is
silently overwritten by the later entry. -/
def scan_animal_folders5 :
    List ScanEntry →
    List ((String × String) × (String × String × String)) →
    List ((String × String) × (String × String × String))
  | [], m => m
  | e :: es, m =>
    scan_animal_folders5 es
      (updateAssoc m (scanKey5 e) (e.path, e.camera_site, e.class_name))

/-! ### Timestamp parsing -/

/-- A parsed calendar timestamp. -/
structure DateTimeVal where
  year : Nat
  month : Nat
  day : Nat
  hour : Nat
  minute : Nat
  second : Nat
  deriving Repr, DecidableEq

/-- Greedy digit run of bounded length, as `strptime` numeric fields match:
returns the value, the number of digits consumed, and the rest. -/
def takeDigits (maxN acc cnt : Nat) : List Char → Nat × Nat × List Char
  | [] => (acc, cnt, [])
  | c :: cs =>
    if cnt < maxN ∧ c.isDigit then
      takeDigits maxN (acc * 10 + (c.toNat - '0'.toNat)) (cnt + 1) cs
    else (acc, cnt, c :: cs)

/-- One numeric `strptime` field: 1..`maxN` digits with value in
`[lo, hi]`. -/
def parseNumField (maxN lo hi : Nat) (s : List Char) :
    Option (Nat × List Char) :=
  let vcr := takeDigits maxN 0 0 s
  if vcr.2.1 = 0 then none
  else if lo ≤ vcr.1 ∧ vcr.1 ≤ hi then some (vcr.1, vcr.2.2) else none

/-- One literal character of the format. -/
def expectChar (c : Char) : List Char → Option (List Char)
  | [] => none
  | x :: xs => if x = c then some xs else none

/-- Gregorian leap year. -/
def isLeap (y : Nat) : Bool :=
  (y % 4 == 0 && y % 100 != 0) || y % 400 == 0

/-- Days in a month, for the calendar validation `datetime` performs. -/
def daysInMonth (y m : Nat) : Nat :=
  if m = 2 then (if isLeap y then 29 else 28)
  else if m = 4 ∨ m = 6 ∨ m = 9 ∨ m = 11 then 30
  else 31

/-- `pd.to_datetime(..., format='%d/%m/%Y %H:%M', errors='coerce')`
(`3_update_output_table.py` lines 125-129 and `5_update_output_table.py`
lines 101-105): an exact, full-string match of day/month/year space
hour:minute — NO seconds field.  Any leftover input (such as a trailing
`:SS`) makes the parse fail, i.e. yields `NaT`. -/
def parseDMYHM (s : List Char) : Option DateTimeVal := do
  let (d, s) ← parseNumField 2 1 31 s
  let s ← expectChar '/' s
  let (m, s) ← parseNumField 2 1 12 s
  let s ← expectChar '/' s
  let (y, s) ← parseNumField 4 1 9999 s
  let s ← expectChar ' ' s
  let (h, s) ← parseNumField 2 0 23 s
  let s ← expectChar ':' s
  let (mi, s) ← parseNumField 2 0 59 s
  if s = [] ∧ d ≤ daysInMonth y m then some ⟨y, m, d, h, mi, 0⟩ else none

/-- `pd.to_datetime(..., format='%Y-%m-%d %H:%M:%S', errors='coerce')`
(`3_update_output_table.py` lines 136-140, `5_update_output_table.py`
lines 112-116), the second attempt for the rows the first format
rejected. -/
def parseYMDHMS (s : List Char) : Option DateTimeVal := do
  let (y, s) ← parseNumField 4 1 9999 s
  let s ← expectChar '-' s
  let (m, s) ← parseNumField 2 1 12 s
  let s ← expectChar '-' s
  let (d, s) ← parseNumField 2 1 31 s
  let s ← expectChar ' ' s
  let (h, s) ← parseNumField 2 0 23 s
  let s ← expectChar ':' s
  let (mi, s) ← parseNumField 2 0 59 s
  let s ← expectChar ':' s
  let (sec, s) ← parseNumField 2 0 59 s
  if s = [] ∧ d ≤ daysInMonth y m then some ⟨y, m, d, h, mi, sec⟩ else none

/-- The timestamp normalisation of `parse_timestamps`
(`3_update_output_table.py` lines 117-148, `5_update_output_table.py`
lines 93-128) at the level of one value: try `%d/%m/%Y %H:%M` first, then
`%Y-%m-%d %H:%M:%S`; `none` is `NaT`, and a `NaT` row is excluded from the
time-based logic downstream. -/
def parseTimestampValue (s : String) : Option DateTimeVal :=
  match parseDMYHM s.data with
  | some v => some v
  | none => parseYMDHMS s.data

/-! ### Auxiliary notions used by the theorems -/

/-- The non-event content of a row: the segmenter rewrites only `event`, so
two rows with equal `coreOf` are interchangeable for it. -/
def coreOf (r : Row) : Row :=
  { r with event := 0 }

/-- A new-event rule that reads only the non-event content of its two
arguments (both embedded rules do). -/
def RuleCore (rule : Row → Row → Bool) : Prop :=
  ∀ p p' c c', coreOf p = coreOf p' → coreOf c = coreOf c' → rule p c = rule p' c'

/-- Relation holding between adjacent rows of a segmented table: within a
site the event id advances exactly when the rule fires, and a site boundary
restarts at event 1. -/
def adjEvent (rule : Row → Row → Bool) (a b : Row) : Prop :=
  b.event =
    if a.camera_site = b.camera_site then
      (if rule a b then a.event + 1 else a.event)
    else 1

/-- Modelled from the spec: the update flag as claim C2 words it, computed
from the PREVIOUS record — `prev_expert_updated == 1 OR (prev_expert_updated
== 0 AND prev_prob > prob_threshold)`.  The code computes this flag from the
current record instead; this definition exists to refute the claim. -/
def specUpdateFlagPrev (thresh : ℚ) (prev : Row) : Bool :=
  prev.expert_updated == 1 ||
    (prev.expert_updated == 0 && decide (thresh < prev.prob))

/-- Modelled from the spec: claim C2's new-event condition, with the update
flag taken from the previous record. -/
def specNewEventPrev (intervalMinutes : Int) (thresh : ℚ) (prev cur : Row) : Bool :=
  decide ((cur.timestamp : Int) - (prev.timestamp : Int) > intervalMinutes * 60) ||
    (classChange prev cur && specUpdateFlagPrev thresh prev)

/-- Modelled from the spec: claim C9's base-filename computation, which
strips the pre-extension suffix only when it is a `-N` detection index — a
hyphen followed by one or more digits.  The code strips after ANY last
hyphen; this definition exists to refute the claim. -/
def specBaseFilename (f : List Char) : List Char :=
  let parts := splitOnChar '.' f
  if parts.length < 2 then f
  else
    let stem := List.intercalate ['.'] parts.dropLast
    let ext := parts.getLastD []
    let pieces := splitOnChar '-' stem
    let suffix := pieces.getLastD []
    if 2 ≤ pieces.length ∧ suffix ≠ [] ∧ suffix.all Char.isDigit then
      List.intercalate ['-'] pieces.dropLast ++ '.' :: ext
    else f

/-- A reported duplicate is genuine: two scanned entries share its key and
carry its two (distinct) classes and its two source paths. -/
def DupGenuine (entries : List ScanEntry) (d : DupRecord) : Prop :=
  ∃ e1 ∈ entries, ∃ e2 ∈ entries,
    scanKey e1 = (d.base, d.site) ∧ scanKey e2 = (d.base, d.site) ∧
    d.old_class = e1.class_name ∧ d.new_class = e2.class_name ∧
    d.old_path = e1.path ∧ d.new_path = e2.path ∧
    e1.class_name ≠ e2.class_name

/-- A row builder for the concrete tables of the counterexamples and
witnesses. -/
def mk (site cls : String) (ts : Nat) (eu : Int) (p : ℚ) : Row :=
  { camera_site := site, filename := "f.JPG", rand_name := "none",
    class_id := 1, class_name := cls, prob := p, conf := 0,
    expert_updated := eu, event := 0, timestamp := ts }

/-- A row builder that also fixes the event id (for stages downstream of the
segmenter). -/
def mkE (site cls : String) (ts ev : Nat) (eu : Int) (p : ℚ) : Row :=
  { camera_site := site, filename := "f.JPG", rand_name := "none",
    class_id := 1, class_name := cls, prob := p, conf := 0,
    expert_updated := eu, event := ev, timestamp := ts }

/-! ## Lemmas about the Event Segmenter -/

lemma core_camera_site {a b : Row} (h : coreOf a = coreOf b) :
    a.camera_site = b.camera_site := by
  rw [show a.camera_site = (coreOf a).camera_site from rfl, h]; rfl

lemma core_class_name {a b : Row} (h : coreOf a = coreOf b) :
    a.class_name = b.class_name := by
  rw [show a.class_name = (coreOf a).class_name from rfl, h]; rfl

lemma core_timestamp {a b : Row} (h : coreOf a = coreOf b) :
    a.timestamp = b.timestamp := by
  rw [show a.timestamp = (coreOf a).timestamp from rfl, h]; rfl

lemma core_prob {a b : Row} (h : coreOf a = coreOf b) : a.prob = b.prob := by
  rw [show a.prob = (coreOf a).prob from rfl, h]; rfl

lemma core_expert_updated {a b : Row} (h : coreOf a = coreOf b) :
    a.expert_updated = b.expert_updated := by
  rw [show a.expert_updated = (coreOf a).expert_updated from rfl, h]; rfl

lemma core_setEvent {a b : Row} (h : coreOf a = coreOf b) (e : Nat) :
    ({ a with event := e } : Row) = { b with event := e } :=
  congrArg (fun x => { x with event := e }) h

lemma coreOf_setEvent (r : Row) (e : Nat) :
    coreOf { r with event := e } = coreOf r :=
  rfl

lemma ruleCore_newEventFull (i : Int) (t : ℚ) : RuleCore (newEventFull i t) := by
  intro p p' c c' hp hc
  unfold newEventFull classChange expertUpdateFlag
  rw [core_class_name hp, core_class_name hc, core_timestamp hp,
    core_timestamp hc, core_prob hc, core_expert_updated hc]

lemma ruleCore_newEventGap (i : Int) : RuleCore (newEventGap i) := by
  intro p p' c c' hp hc
  unfold newEventGap
  rw [core_timestamp hp, core_timestamp hc]

lemma rowle_congr {a a' b b' : Row} (ha : coreOf a = coreOf a')
    (hb : coreOf b = coreOf b') : rowle a b ↔ rowle a' b' := by
  unfold rowle
  rw [core_camera_site ha, core_camera_site hb, core_timestamp ha,
    core_timestamp hb]

/-- The segmenter walk rewrites only `event`. -/
lemma assignEventsGo_core (firstEv : Nat) (rule : Row → Row → Bool) :
    ∀ (l : List Row) (prev : Row) (ev : Nat),
      List.Forall₂ (fun a b => coreOf a = coreOf b)
        (assignEventsGo firstEv rule prev ev l) l
  | [], _, _ => List.Forall₂.nil
  | r :: rs, prev, ev => by
    simp only [assignEventsGo]
    by_cases h : r.camera_site = prev.camera_site
    · rw [if_pos h]
      exact List.Forall₂.cons (coreOf_setEvent r _)
        (assignEventsGo_core firstEv rule rs r _)
    · rw [if_neg h]
      exact List.Forall₂.cons (coreOf_setEvent r firstEv)
        (assignEventsGo_core firstEv rule rs r firstEv)

lemma assignEvents_core (firstEv : Nat) (rule : Row → Row → Bool)
    (l : List Row) :
    List.Forall₂ (fun a b => coreOf a = coreOf b)
      (assignEvents firstEv rule l) l := by
  cases l with
  | nil => exact List.Forall₂.nil
  | cons r rs =>
    exact List.Forall₂.cons (coreOf_setEvent r firstEv)
      (assignEventsGo_core firstEv rule rs r firstEv)

/-- The segmenter output depends only on the non-event content of the
input. -/
lemma assignEventsGo_congr (firstEv : Nat) {rule : Row → Row → Bool}
    (hr : RuleCore rule) :
    ∀ {l₁ l₂ : List Row},
      List.Forall₂ (fun a b => coreOf a = coreOf b) l₁ l₂ →
      ∀ {p₁ p₂ : Row}, coreOf p₁ = coreOf p₂ → ∀ (ev : Nat),
        assignEventsGo firstEv rule p₁ ev l₁
          = assignEventsGo firstEv rule p₂ ev l₂ := by
  intro l₁ l₂ h
  induction h with
  | nil => intro p₁ p₂ _ ev; rfl
  | @cons a b l₁' l₂' hab htail ih =>
    intro p₁ p₂ hp ev
    simp only [assignEventsGo]
    by_cases hs : a.camera_site = p₁.camera_site
    · have hs' : b.camera_site = p₂.camera_site := by
        rw [← core_camera_site hab, ← core_camera_site hp]; exact hs
      rw [if_pos hs, if_pos hs', hr p₁ p₂ a b hp hab]
      exact congrArg₂ List.cons (core_setEvent hab _) (ih hab _)
    · have hs' : ¬b.camera_site = p₂.camera_site := by
        rw [← core_camera_site hab, ← core_camera_site hp]; exact hs
      rw [if_neg hs, if_neg hs']
      exact congrArg₂ List.cons (core_setEvent hab firstEv) (ih hab firstEv)

lemma assignEvents_congr (firstEv : Nat) {rule : Row → Row → Bool}
    (hr : RuleCore rule) {l₁ l₂ : List Row}
    (h : List.Forall₂ (fun a b => coreOf a = coreOf b) l₁ l₂) :
    assignEvents firstEv rule l₁ = assignEvents firstEv rule l₂ := by
  cases h with
  | nil => rfl
  | @cons a b l₁' l₂' hab htail =>
    exact congrArg₂ List.cons (core_setEvent hab firstEv)
      (assignEventsGo_congr firstEv hr htail hab firstEv)

lemma forall₂_mem_left {α β : Type} {R : α → β → Prop} :
    ∀ {l₁ : List α} {l₂ : List β}, List.Forall₂ R l₁ l₂ →
      ∀ {x : α}, x ∈ l₁ → ∃ y ∈ l₂, R x y := by
  intro l₁ l₂ h
  induction h with
  | nil => intro x hx; cases hx
  | @cons a b l₁' l₂' hab _ ih =>
    intro x hx
    rcases List.mem_cons.mp hx with rfl | hx'
    · exact ⟨b, List.mem_cons_self b l₂', hab⟩
    · rcases ih hx' with ⟨y, hy, hxy⟩
      exact ⟨y, List.mem_cons_of_mem b hy, hxy⟩

/-- Transfer of pairwise sortedness along a pointwise core equality. -/
lemma pairwise_of_forall₂_core :
    ∀ {l₁ l₂ : List Row},
      List.Forall₂ (fun a b => coreOf a = coreOf b) l₁ l₂ →
      l₂.Pairwise rowle → l₁.Pairwise rowle := by
  intro l₁ l₂ h
  induction h with
  | nil => intro _; exact List.Pairwise.nil
  | @cons a b l₁' l₂' hab htail ih =>
    intro hp
    rcases List.pairwise_cons.mp hp with ⟨hb, hp'⟩
    refine List.pairwise_cons.mpr ⟨?_, ih hp'⟩
    intro x hx
    rcases forall₂_mem_left htail hx with ⟨y, hy, hxy⟩
    exact (rowle_congr hab hxy).mpr (hb y hy)

lemma sortRows_sorted (df : List Row) : (sortRows df).Pairwise rowle :=
  List.sorted_insertionSort rowle df

lemma sortRows_of_sorted {l : List Row} (h : l.Pairwise rowle) :
    sortRows l = l :=
  List.Sorted.insertionSort_eq h

lemma stripEvents_core (l : List Row) :
    List.Forall₂ (fun a b => coreOf a = coreOf b) (stripEvents l) l := by
  induction l with
  | nil => exact List.Forall₂.nil
  | cons r rs ih => exact List.Forall₂.cons (coreOf_setEvent r 0) ih

/-- The full segmenter pipeline `sort` + `assign` applied twice (with or
without stripping the event ids in between) equals one application. -/
lemma segment_idem (firstEv : Nat) {rule : Row → Row → Bool}
    (hr : RuleCore rule) (df : List Row) :
    assignEvents firstEv rule
        (sortRows (stripEvents (assignEvents firstEv rule (sortRows df)))) =
      assignEvents firstEv rule (sortRows df) := by
  have hout : (assignEvents firstEv rule (sortRows df)).Pairwise rowle :=
    pairwise_of_forall₂_core (assignEvents_core firstEv rule (sortRows df))
      (sortRows_sorted df)
  have hstrip :
      (stripEvents (assignEvents firstEv rule (sortRows df))).Pairwise
        rowle :=
    pairwise_of_forall₂_core
      (stripEvents_core (assignEvents firstEv rule (sortRows df))) hout
  rw [sortRows_of_sorted hstrip]
  calc
    assignEvents firstEv rule
        (stripEvents (assignEvents firstEv rule (sortRows df)))
        = assignEvents firstEv rule (assignEvents firstEv rule (sortRows df)) :=
      assignEvents_congr firstEv hr
        (stripEvents_core (assignEvents firstEv rule (sortRows df)))
    _ = assignEvents firstEv rule (sortRows df) :=
      assignEvents_congr firstEv hr
        (assignEvents_core firstEv rule (sortRows df))

lemma assignEventsGo_find_site (firstEv : Nat) (rule : Row → Row → Bool) :
    ∀ (l : List Row) (prev : Row) (ev : Nat) (s : String) (r : Row),
      prev.camera_site ≠ s →
      (assignEventsGo firstEv rule prev ev l).find?
          (fun x => x.camera_site == s) = some r →
      r.event = firstEv
  | [], _, _, _, _, _, hfind => by cases hfind
  | r' :: rs, prev, ev, s, r, hps, hfind => by
    by_cases h : r'.camera_site = prev.camera_site
    · have hr's : r'.camera_site ≠ s := h ▸ hps
      rw [show assignEventsGo firstEv rule prev ev (r' :: rs)
          = { r' with event := if rule prev r' then ev + 1 else ev } ::
            assignEventsGo firstEv rule r'
              (if rule prev r' then ev + 1 else ev) rs by
            simp only [assignEventsGo]; rw [if_pos h]] at hfind
      rw [List.find?_cons_of_neg _ (by simpa using hr's)] at hfind
      exact assignEventsGo_find_site firstEv rule rs r' _ s r hr's hfind
    · rw [show assignEventsGo firstEv rule prev ev (r' :: rs)
          = { r' with event := firstEv } ::
            assignEventsGo firstEv rule r' firstEv rs by
            simp only [assignEventsGo]; rw [if_neg h]] at hfind
      by_cases hr's : r'.camera_site = s
      · rw [List.find?_cons_of_pos _ (by simpa using hr's)] at hfind
        cases hfind; rfl
      · rw [List.find?_cons_of_neg _ (by simpa using hr's)] at hfind
        exact assignEventsGo_find_site firstEv rule rs r' firstEv s r hr's
          hfind

/-- In a segmented table the first row carrying a given site (which, the
table being sorted, is that site's earliest record) has the mode's first-row
event id. -/
lemma assignEvents_find_site (firstEv : Nat) (rule : Row → Row → Bool)
    (l : List Row) (s : String) (r : Row)
    (hfind : (assignEvents firstEv rule l).find?
      (fun x => x.camera_site == s) = some r) :
    r.event = firstEv := by
  cases l with
  | nil => cases hfind
  | cons r₀ rs =>
    simp only [assignEvents] at hfind
    by_cases h : r₀.camera_site = s
    · rw [List.find?_cons_of_pos _ (by simpa using h)] at hfind
      cases hfind; rfl
    · rw [List.find?_cons_of_neg _ (by simpa using h)] at hfind
      exact assignEventsGo_find_site firstEv rule rs r₀ firstEv s r h hfind

lemma assignEvents_head (firstEv : Nat) (rule : Row → Row → Bool)
    (l : List Row) (r : Row)
    (h : (assignEvents firstEv rule l).head? = some r) :
    r.event = firstEv := by
  cases l with
  | nil => cases h
  | cons r₀ rs => cases h; rfl

lemma adjEvent_chain_go {rule : Row → Row → Bool} (hr : RuleCore rule) :
    ∀ (l : List Row) (prev : Row) (ev : Nat),
      List.Chain' (adjEvent rule)
        ({ prev with event := ev } :: assignEventsGo 1 rule prev ev l)
  | [], _, _ => List.chain'_singleton _
  | r :: rs, prev, ev => by
    by_cases h : r.camera_site = prev.camera_site
    · rw [show assignEventsGo 1 rule prev ev (r :: rs)
          = { r with event := if rule prev r then ev + 1 else ev } ::
            assignEventsGo 1 rule r (if rule prev r then ev + 1 else ev) rs by
            simp only [assignEventsGo]; rw [if_pos h]]
      refine List.Chain'.cons ?_ (adjEvent_chain_go hr rs r _)
      unfold adjEvent
      rw [if_pos (show ({ prev with event := ev } : Row).camera_site
            = ({ r with event := if rule prev r then ev + 1 else ev } : Row).camera_site
          from h.symm),
        hr { prev with event := ev }
          prev { r with event := if rule prev r then ev + 1 else ev } r rfl rfl]
    · rw [show assignEventsGo 1 rule prev ev (r :: rs)
          = { r with event := 1 } :: assignEventsGo 1 rule r 1 rs by
            simp only [assignEventsGo]; rw [if_neg h]]
      refine List.Chain'.cons ?_ (adjEvent_chain_go hr rs r 1)
      unfold adjEvent
      rw [if_neg (show ¬ ({ prev with event := ev } : Row).camera_site
            = ({ r with event := 1 } : Row).camera_site
          from fun k => h k.symm)]

/-- The output of the full-mode segmenter (first-row event 1) satisfies the
adjacent-events relation everywhere. -/
lemma adjEvent_chain {rule : Row → Row → Bool} (hr : RuleCore rule)
    (l : List Row) :
    List.Chain' (adjEvent rule) (assignEvents 1 rule l) := by
  cases l with
  | nil => exact List.chain'_nil
  | cons r rs => exact adjEvent_chain_go hr rs r 1

/-! ## Claim theorems -/

/-- C2 (counterexample): the claim states that the event id is incremented
iff `gap > interval` or (`class_changed` and an update flag computed FROM THE
PREVIOUS record: `prev_expert_updated == 1` or `prev_expert_updated == 0 ∧
prev_prob > thresh`).  Concretely: two same-site rows one minute apart
(interval 5, threshold 1/5), class `fox` → `deer` (neither unknown),
previous row `expert_updated = 1`, prob 9/10 — the claim's condition
(`specNewEventPrev`) holds, so the claim demands events `[1, 2]`; the code
computes the flag from the CURRENT row (`expert_updated = 0` with prob
1/10 ≤ threshold, flag false), so `determine_independent_events` yields
events `[1, 1]`. -/
theorem c2_event_rule_counterexample :
    specNewEventPrev 5 (mkRat 1 5) (mk "A" "fox" 0 1 (mkRat 9 10))
        (mk "A" "deer" 60 0 (mkRat 1 10)) = true ∧
      (determine_independent_events 5 (mkRat 1 5)
          [mk "A" "fox" 0 1 (mkRat 9 10),
            mk "A" "deer" 60 0 (mkRat 1 10)]).map Row.event
        = [1, 1] :=
  ⟨by decide, by decide⟩

/-- C2 (amended): in the full segmentation mode the event id of each record
after the first of its site is incremented iff the gap to the previous record
exceeds `interval_minutes`, or the class changed (neither class being
`unknown_animal`) and the update flag holds, where the flag is computed from
the CURRENT record: `expert_updated == 1`, or `expert_updated == 0` and
`prob > prob_threshold` (`expertUpdateFlag`, inside `newEventFull`).  Stated
as: adjacent rows of the output satisfy `adjEvent` (same site: the event id
advances exactly when `newEventFull` fires; new site: event restarts at 1),
and the first output row has event 1. -/
theorem c2_event_rule_amended (intervalMinutes : Int) (thresh : ℚ)
    (df : List Row) :
    List.Chain' (adjEvent (newEventFull intervalMinutes thresh))
        (determine_independent_events intervalMinutes thresh df) ∧
      ∀ r, (determine_independent_events intervalMinutes thresh df).head?
          = some r → r.event = 1 :=
  ⟨adjEvent_chain (ruleCore_newEventFull intervalMinutes thresh) _,
    fun r h => assignEvents_head 1 _ _ r h⟩

/-- C2 (witness): the amended theorem instantiated on a concrete two-row
table whose second row starts a new event by the gap rule. -/
theorem c2_event_rule_witness :
    (determine_independent_events 5 0
        [mk "A" "fox" 0 1 1, mk "A" "deer" 400 0 1]).head?
      = some (mkE "A" "fox" 0 1 1 1) ∧
      (mkE "A" "fox" 0 1 1 1).event = 1 :=
  ⟨by decide,
    (c2_event_rule_amended 5 0 [mk "A" "fox" 0 1 1, mk "A" "deer" 400 0 1]).2
      (mkE "A" "fox" 0 1 1 1) (by decide)⟩

/-- C6: re-running either Event Segmenter (full mode
`determine_independent_events`, gap-only mode `recalc_events`) on its own
output with the event ids stripped reproduces that output — in particular
identical event ids.  The segmenter rewrites only the `event` column, its
rule never reads it, the output is sorted by `(camera_site, timestamp)`, and
re-sorting a sorted table (stably) leaves it unchanged. -/
theorem c6_segmentation_idempotent (intervalMinutes : Int) (thresh : ℚ)
    (df : List Row) :
    determine_independent_events intervalMinutes thresh
        (stripEvents (determine_independent_events intervalMinutes thresh df))
      = determine_independent_events intervalMinutes thresh df ∧
    recalc_events intervalMinutes
        (stripEvents (recalc_events intervalMinutes df))
      = recalc_events intervalMinutes df :=
  ⟨segment_idem 1 (ruleCore_newEventFull intervalMinutes thresh) df,
    segment_idem (firstEventGap intervalMinutes)
      (ruleCore_newEventGap intervalMinutes) df⟩

/-- C7 (counterexample): the claim demands event id 1 for every site's first
record in BOTH segmentation modes, regardless of inputs.  The gap-only mode
evaluates `fillna(Timedelta(0)) > timedelta(minutes=int_m)` on the first row
of each site too: with a negative interval (here −1) that comparison is true,
`cumsum() + 1` yields 2, and `recalc_events` gives a single-row table the
event id 2 — while the full mode, whose `is_first_snip` mask forces the flag
to false, still gives 1 on the same input at the same interval. -/
theorem c7_first_record_counterexample :
    (recalc_events (-1) [mk "A" "fox" 0 1 1]).map Row.event = [2] ∧
      (determine_independent_events (-1) 0 [mk "A" "fox" 0 1 1]).map Row.event
        = [1] ∧
      (2 : Nat) ≠ 1 :=
  ⟨by decide, by decide, by decide⟩

/-- C7 (amended): the first record of every camera site in the output order
(the table is sorted by `(camera_site, timestamp)`, so `find?` returns the
site's earliest record) has event id 1 in the full segmentation mode whatever
its gap, class or flag inputs — the `is_first_snip` mask forces `new_event`
to false there — and in the gap-only mode whenever `interval_minutes ≥ 0`;
with a negative interval the gap-only mode's `fillna(0)` comparison fires on
the first record and it gets event id 2. -/
theorem c7_first_record_amended (intervalMinutes : Int) (thresh : ℚ)
    (df : List Row) (s : String) (r : Row) :
    ((determine_independent_events intervalMinutes thresh df).find?
        (fun x => x.camera_site == s) = some r → r.event = 1) ∧
      (0 ≤ intervalMinutes →
        (recalc_events intervalMinutes df).find?
          (fun x => x.camera_site == s) = some r → r.event = 1) :=
  ⟨fun h => assignEvents_find_site 1 _ _ s r h,
    fun hi h => by
      have h1 : firstEventGap intervalMinutes = 1 := by
        unfold firstEventGap
        rw [if_neg]
        simp only [decide_eq_true_eq, not_lt]
        exact mul_nonneg hi (by norm_num)
      rw [← h1]
      exact assignEvents_find_site (firstEventGap intervalMinutes) _ _ s r h⟩

/-- C7 (witness): the amended theorem instantiated on a two-site table with
interval 5 ≥ 0; site `A`'s first record (which arrives second in the raw
input) has event 1 under both modes. -/
theorem c7_first_record_witness :
    ((determine_independent_events 5 0
        [mk "B" "fox" 500 1 1, mk "A" "deer" 60 0 1]).find?
      (fun x => x.camera_site == "A") = some (mkE "A" "deer" 60 1 0 1) ∧
      (mkE "A" "deer" 60 1 0 1).event = 1) ∧
    ((0 : Int) ≤ 5 ∧
      (recalc_events 5 [mk "B" "fox" 500 1 1, mk "A" "deer" 60 0 1]).find?
        (fun x => x.camera_site == "A") = some (mkE "A" "deer" 60 1 0 1) ∧
      (mkE "A" "deer" 60 1 0 1).event = 1) :=
  ⟨⟨by decide,
      (c7_first_record_amended 5 0
        [mk "B" "fox" 500 1 1, mk "A" "deer" 60 0 1]
        "A" (mkE "A" "deer" 60 1 0 1)).1 (by decide)⟩,
    ⟨by decide, by decide,
      (c7_first_record_amended 5 0
        [mk "B" "fox" 500 1 1, mk "A" "deer" 60 0 1]
        "A" (mkE "A" "deer" 60 1 0 1)).2 (by decide) (by decide)⟩⟩

/-! ## Lemmas about the Unknown Resolver -/

lemma eventKey_resolveRowSpec (flag : Int) (ug : Bool) (thresh : ℚ)
    (df : List Row) (r : Row) :
    eventKey (resolveRowSpec flag ug thresh df r) = eventKey r := by
  simp only [resolveRowSpec]
  split <;> rfl

lemma mem_firstUniquesAux {α : Type} [DecidableEq α] :
    ∀ (l seen : List α) (x : α),
      x ∈ firstUniquesAux seen l ↔ x ∈ l ∧ x ∉ seen
  | [], seen, x => by simp [firstUniquesAux]
  | y :: ys, seen, x => by
    simp only [firstUniquesAux]
    by_cases h : y ∈ seen
    · rw [if_pos h, mem_firstUniquesAux ys seen x]
      simp only [List.mem_cons]
      constructor
      · rintro ⟨hx, hs⟩; exact ⟨Or.inr hx, hs⟩
      · rintro ⟨hx | hx, hs⟩
        · exact absurd (hx ▸ h) hs
        · exact ⟨hx, hs⟩
    · rw [if_neg h]
      simp only [List.mem_cons, mem_firstUniquesAux ys (y :: seen) x,
        List.mem_cons, not_or]
      constructor
      · rintro (rfl | ⟨hx, hxy, hs⟩)
        · exact ⟨Or.inl rfl, h⟩
        · exact ⟨Or.inr hx, hs⟩
      · rintro ⟨rfl | hx, hs⟩
        · exact Or.inl rfl
        · by_cases hxy : x = y
          · exact Or.inl hxy
          · exact Or.inr ⟨hx, hxy, hs⟩

lemma mem_firstUniques {α : Type} [DecidableEq α] (l : List α) (x : α) :
    x ∈ firstUniques l ↔ x ∈ l := by
  rw [firstUniques, mem_firstUniquesAux]
  simp

lemma firstUniquesAux_nodup {α : Type} [DecidableEq α] :
    ∀ (l seen : List α), (firstUniquesAux seen l).Nodup
  | [], _ => List.nodup_nil
  | y :: ys, seen => by
    simp only [firstUniquesAux]
    by_cases h : y ∈ seen
    · rw [if_pos h]; exact firstUniquesAux_nodup ys seen
    · rw [if_neg h]
      refine List.nodup_cons.mpr ⟨?_, firstUniquesAux_nodup ys (y :: seen)⟩
      intro hy
      exact ((mem_firstUniquesAux ys (y :: seen) y).mp hy).2
        (List.mem_cons_self y seen)

lemma firstUniques_nodup {α : Type} [DecidableEq α] (l : List α) :
    (firstUniques l).Nodup :=
  firstUniquesAux_nodup l []

lemma foldr_max_le (l : List Nat) : ∀ x ∈ l, x ≤ l.foldr max 0 := by
  induction l with
  | nil => intro x hx; cases hx
  | cons y ys ih =>
    intro x hx
    rcases List.mem_cons.mp hx with rfl | hx'
    · exact le_max_left _ _
    · exact le_trans (ih x hx') (le_max_right _ _)

lemma foldr_max_mem (l : List Nat) (h : l ≠ []) : l.foldr max 0 ∈ l := by
  induction l with
  | nil => exact absurd rfl h
  | cons y ys ih =>
    by_cases hys : ys = []
    · subst hys; simp
    · rcases le_total (ys.foldr max 0) y with hle | hle
      · simp only [List.foldr_cons, max_eq_left hle]
        exact List.mem_cons_self y ys
      · simp only [List.foldr_cons, max_eq_right hle]
        exact List.mem_cons_of_mem y (ih hys)

lemma le_foldl_max {α : Type} [LinearOrder α] :
    ∀ (l : List α) (a : α),
      a ≤ l.foldl max a ∧ ∀ x ∈ l, x ≤ l.foldl max a := by
  intro l
  induction l with
  | nil => intro a; exact ⟨le_refl a, fun x hx => absurd hx (List.not_mem_nil x)⟩
  | cons y ys ih =>
    intro a
    simp only [List.foldl_cons]
    refine ⟨le_trans (le_max_left a y) (ih (max a y)).1, ?_⟩
    intro x hx
    rcases List.mem_cons.mp hx with rfl | hx'
    · exact le_trans (le_max_right a x) (ih (max a x)).1
    · exact (ih (max a y)).2 x hx'

lemma foldl_max_mem {α : Type} [LinearOrder α] :
    ∀ (l : List α) (a : α), l.foldl max a = a ∨ l.foldl max a ∈ l := by
  intro l
  induction l with
  | nil => intro a; exact Or.inl rfl
  | cons y ys ih =>
    intro a
    simp only [List.foldl_cons]
    rcases ih (max a y) with h | h
    · rcases max_choice a y with hm | hm
      · exact Or.inl (h.trans hm)
      · exact Or.inr (List.mem_cons.mpr (Or.inl (h.trans hm)))
    · exact Or.inr (List.mem_cons_of_mem y h)

lemma maxProbD_spec (l : List ℚ) (h : l ≠ []) :
    maxProbD l ∈ l ∧ ∀ x ∈ l, x ≤ maxProbD l := by
  cases l with
  | nil => exact absurd rfl h
  | cons p ps =>
    simp only [maxProbD]
    constructor
    · rcases foldl_max_mem ps p with h' | h'
      · rw [h']; exact List.mem_cons_self p ps
      · exact List.mem_cons_of_mem p h'
    · intro x hx
      rcases List.mem_cons.mp hx with rfl | hx'
      · exact (le_foldl_max ps x).1
      · exact (le_foldl_max ps p).2 x hx'

lemma headD_mem {α : Type} (l : List α) (d : α) (h : l ≠ []) :
    l.headD d ∈ l := by
  cases l with
  | nil => exact absurd rfl h
  | cons x xs => exact List.mem_cons_self x xs

lemma count_le_maxCount {names : List String} {s : String} (h : s ∈ names) :
    names.count s ≤ maxCount names :=
  foldr_max_le _ _ (List.mem_map_of_mem (fun t => names.count t) h)

lemma exists_count_eq_maxCount {names : List String} (h : names ≠ []) :
    ∃ s ∈ names, names.count s = maxCount names := by
  have hmem : maxCount names ∈ names.map fun t => names.count t :=
    foldr_max_mem _ (by simpa using h)
  rcases List.mem_map.mp hmem with ⟨s, hs, hcnt⟩
  exact ⟨s, hs, hcnt⟩

/-- The value picked by `modeClass` is a most frequent element. -/
lemma modeClass_spec (names : List String) (h : names ≠ []) :
    modeClass names ∈ names ∧
      ∀ t ∈ names, names.count t ≤ names.count (modeClass names) := by
  obtain ⟨s, hs, hcnt⟩ := exists_count_eq_maxCount h
  have hw : s ∈ names.filter fun x => names.count x == maxCount names :=
    List.mem_filter.mpr ⟨hs, by simp [hcnt]⟩
  have hwne : (names.filter fun x => names.count x == maxCount names) ≠ [] :=
    List.ne_nil_of_mem hw
  have hsne :
      ((names.filter fun x => names.count x == maxCount names).insertionSort
        strle) ≠ [] := by
    intro hcontra
    apply hwne
    have hlen := (List.perm_insertionSort strle
      (names.filter fun x => names.count x == maxCount names)).length_eq
    rw [hcontra] at hlen
    exact List.eq_nil_of_length_eq_zero hlen.symm
  have hmode_w :
      modeClass names ∈ names.filter fun x => names.count x == maxCount names := by
    have hmem_s :
        modeClass names ∈
          (names.filter fun x => names.count x == maxCount names).insertionSort
            strle :=
      headD_mem _ "" hsne
    exact (List.perm_insertionSort strle _).mem_iff.mp hmem_s
  rcases List.mem_filter.mp hmode_w with ⟨hmem, hbeq⟩
  have hcount : names.count (modeClass names) = maxCount names := by
    simpa using hbeq
  exact ⟨hmem, fun t ht => hcount ▸ count_le_maxCount ht⟩

/-- The rows of the group of `k` are untouched while `k` is unprocessed, so
the group read from the partially processed table equals the original
group. -/
lemma resolveMarked_filter_key (flag : Int) (ug : Bool) (thresh : ℚ)
    (df : List Row) {k : String × Nat} {K : List (String × Nat)}
    (hk : k ∉ K) :
    (resolveMarked flag ug thresh df K).filter (fun x => eventKey x == k)
      = df.filter (fun x => eventKey x == k) := by
  unfold resolveMarked
  rw [List.filter_map]
  have hcomp :
      ((fun x => eventKey x == k) ∘
        fun r => if eventKey r ∈ K then resolveRowSpec flag ug thresh df r else r)
      = fun r => eventKey r == k := by
    funext r
    simp only [Function.comp]
    by_cases hr : eventKey r ∈ K
    · rw [if_pos hr, eventKey_resolveRowSpec]
    · rw [if_neg hr]
  rw [hcomp]
  calc
    (df.filter fun r => eventKey r == k).map
        (fun r => if eventKey r ∈ K then resolveRowSpec flag ug thresh df r else r)
        = (df.filter fun r => eventKey r == k).map id := by
      apply List.map_congr_left
      intro r hr
      have hkey : eventKey r = k := by
        have := (List.mem_filter.mp hr).2
        simpa using this
      rw [if_neg (hkey ▸ hk)]
      rfl
    _ = df.filter fun r => eventKey r == k := List.map_id _

/-- Processing one unprocessed key advances the invariant by that key. -/
lemma resolveGroup_marked (flag : Int) (ug : Bool) (thresh : ℚ)
    (df : List Row) {k : String × Nat} {K : List (String × Nat)}
    (hk : k ∉ K) :
    resolveGroup flag ug thresh k (resolveMarked flag ug thresh df K)
      = resolveMarked flag ug thresh df (k :: K) := by
  simp only [resolveGroup]
  rw [resolveMarked_filter_key flag ug thresh df hk]
  by_cases hconf :
      (confidentRows thresh (df.filter fun x => eventKey x == k)).isEmpty
  · rw [if_pos hconf]
    unfold resolveMarked
    apply List.map_congr_left
    intro r _
    by_cases hK : eventKey r ∈ K
    · rw [if_pos hK, if_pos (List.mem_cons_of_mem k hK)]
    · rw [if_neg hK]
      by_cases hrk : eventKey r = k
      · rw [if_pos (List.mem_cons.mpr (Or.inl hrk))]
        simp only [resolveRowSpec]
        have hcond :
            ¬ ((r.class_name == "unknown_animal" &&
                !(confidentRows thresh
                  (df.filter fun x => eventKey x == eventKey r)).isEmpty)
              = true) := by
          rw [hrk]
          simp only [Bool.and_eq_true, Bool.not_eq_true', not_and]
          intro _
          rw [Bool.not_eq_false]
          exact hconf
        rw [if_neg hcond]
      · have hmem : eventKey r ∉ k :: K := by
          intro hc
          rcases List.mem_cons.mp hc with h' | h'
          · exact hrk h'
          · exact hK h'
        rw [if_neg hmem]
  · rw [if_neg hconf]
    unfold resolveMarked
    rw [List.map_map]
    apply List.map_congr_left
    intro r _
    simp only [Function.comp]
    by_cases hK : eventKey r ∈ K
    · have hcond :
          ¬ ((eventKey (resolveRowSpec flag ug thresh df r) == k &&
              (resolveRowSpec flag ug thresh df r).class_name
                == "unknown_animal") = true) := by
        rw [Bool.and_eq_true]
        rintro ⟨h1, _⟩
        rw [eventKey_resolveRowSpec] at h1
        exact hk ((eq_of_beq h1) ▸ hK)
      rw [if_pos hK, if_neg hcond, if_pos (List.mem_cons_of_mem k hK)]
    · rw [if_neg hK]
      by_cases hrk : eventKey r = k
      · by_cases hcls : r.class_name = "unknown_animal"
        · have hcond : (eventKey r == k && r.class_name == "unknown_animal")
              = true := by simp [hrk, hcls]
          rw [if_pos hcond, if_pos (List.mem_cons.mpr (Or.inl hrk))]
          simp only [resolveRowSpec]
          have hcond' :
              (r.class_name == "unknown_animal" &&
                !(confidentRows thresh
                  (df.filter fun x => eventKey x == eventKey r)).isEmpty)
                = true := by
            rw [hrk]
            simp only [Bool.and_eq_true, Bool.not_eq_true']
            exact ⟨by simp [hcls], Bool.not_eq_true _ ▸ hconf⟩
          rw [if_pos hcond', hrk]
        · have hcond : ¬ ((eventKey r == k && r.class_name == "unknown_animal")
              = true) := by simp [hcls]
          rw [if_neg hcond, if_pos (List.mem_cons.mpr (Or.inl hrk))]
          simp only [resolveRowSpec]
          have hcond' :
              ¬ ((r.class_name == "unknown_animal" &&
                !(confidentRows thresh
                  (df.filter fun x => eventKey x == eventKey r)).isEmpty)
                = true) := by simp [hcls]
          rw [if_neg hcond']
      · have hcond : ¬ ((eventKey r == k && r.class_name == "unknown_animal")
            = true) := by simp [hrk]
        have hmem : eventKey r ∉ k :: K := by
          intro hc
          rcases List.mem_cons.mp hc with h' | h'
          · exact hrk h'
          · exact hK h'
        rw [if_neg hcond, if_neg hmem]

/-- The processed-key set matters only through membership. -/
lemma resolveMarked_congr (flag : Int) (ug : Bool) (thresh : ℚ)
    (df : List Row) {K₁ K₂ : List (String × Nat)}
    (h : ∀ x, x ∈ K₁ ↔ x ∈ K₂) :
    resolveMarked flag ug thresh df K₁ = resolveMarked flag ug thresh df K₂ := by
  unfold resolveMarked
  apply List.map_congr_left
  intro r _
  by_cases h₁ : eventKey r ∈ K₁
  · rw [if_pos h₁, if_pos ((h _).mp h₁)]
  · rw [if_neg h₁, if_neg fun hc => h₁ ((h _).mpr hc)]

lemma foldl_resolveGroup (flag : Int) (ug : Bool) (thresh : ℚ)
    (df : List Row) :
    ∀ (ks K : List (String × Nat)), ks.Nodup → (∀ x ∈ ks, x ∉ K) →
      ks.foldl (fun acc k => resolveGroup flag ug thresh k acc)
          (resolveMarked flag ug thresh df K)
        = resolveMarked flag ug thresh df (ks ++ K)
  | [], K, _, _ => by simp
  | k :: ks', K, hnodup, hdisj => by
    simp only [List.foldl_cons]
    rw [resolveGroup_marked flag ug thresh df (hdisj k (List.mem_cons_self k ks'))]
    rw [foldl_resolveGroup flag ug thresh df ks' (k :: K)
      (List.nodup_cons.mp hnodup).2
      (by
        intro x hx
        intro hc
        rcases List.mem_cons.mp hc with h' | h'
        · exact (List.nodup_cons.mp hnodup).1 (h' ▸ hx)
        · exact hdisj x (List.mem_cons_of_mem k hx) h')]
    apply resolveMarked_congr
    intro x
    simp only [List.mem_append, List.mem_cons]
    tauto

/-- The group-loop resolver equals the per-row description: each row is
resolved against its own `(camera_site, event)` group of the original
table. -/
lemma resolver_eq_spec (flag : Int) (ug : Bool) (thresh : ℚ) (df : List Row) :
    (firstUniques (df.map eventKey)).foldl
        (fun acc k => resolveGroup flag ug thresh k acc) df
      = df.map (resolveRowSpec flag ug thresh df) := by
  have h0 : resolveMarked flag ug thresh df [] = df := by
    unfold resolveMarked
    calc
      df.map (fun r => if eventKey r ∈ ([] : List (String × Nat)) then
          resolveRowSpec flag ug thresh df r else r)
          = df.map id := by
        apply List.map_congr_left
        intro r _
        rw [if_neg (List.not_mem_nil _)]
        rfl
      _ = df := List.map_id _
  have hfold := foldl_resolveGroup flag ug thresh df
    (firstUniques (df.map eventKey)) []
    (firstUniques_nodup _) (fun x _ => List.not_mem_nil x)
  rw [h0] at hfold
  rw [hfold]
  unfold resolveMarked
  apply List.map_congr_left
  intro r hr
  rw [if_pos ?_]
  simp only [List.append_nil, mem_firstUniques]
  exact List.mem_map_of_mem eventKey hr

lemma refine_getElem (thresh : ℚ) (df : List Row) (i : Nat) :
    (refine_unknown_animal_classifications thresh df)[i]?
      = (df[i]?).map (resolveRowSpec 2 true thresh df) := by
  unfold refine_unknown_animal_classifications
  rw [resolver_eq_spec]
  exact List.getElem?_map _ _ _

lemma infer_getElem (thresh : ℚ) (df : List Row) (i : Nat) :
    (infer_unknowns_reconcile thresh df)[i]?
      = (df[i]?).map (resolveRowSpec 5 false thresh df) := by
  unfold infer_unknowns_reconcile
  rw [resolver_eq_spec]
  exact List.getElem?_map _ _ _

/-- C10: the Unknown Resolver modifies only `unknown_animal` rows — a row
whose `class_name` differs from the sentinel is returned identical (every
field) by both the initial-consolidation variant and the reconciliation
variant. -/
theorem c10_resolver_frame (thresh : ℚ) (df : List Row) (i : Nat) (r : Row)
    (hi : df[i]? = some r) (hcls : r.class_name ≠ "unknown_animal") :
    (refine_unknown_animal_classifications thresh df)[i]? = some r ∧
      (infer_unknowns_reconcile thresh df)[i]? = some r := by
  have hspec : ∀ (flag : Int) (ug : Bool),
      resolveRowSpec flag ug thresh df r = r := by
    intro flag ug
    simp only [resolveRowSpec]
    rw [if_neg (by simp [hcls])]
  refine ⟨?_, ?_⟩
  · rw [refine_getElem, hi, Option.map_some', hspec]
  · rw [infer_getElem, hi, Option.map_some', hspec]

/-- C10 (witness): the fox row of a two-row group (the other row being
`unknown_animal`) is bit-identical after both resolver variants. -/
theorem c10_resolver_frame_witness :
    (refine_unknown_animal_classifications 0
        [mkE "A" "fox" 0 1 0 (mkRat 1 2),
          mkE "A" "unknown_animal" 1 1 0 (mkRat 9 10)])[0]?
      = some (mkE "A" "fox" 0 1 0 (mkRat 1 2)) ∧
    (infer_unknowns_reconcile 0
        [mkE "A" "fox" 0 1 0 (mkRat 1 2),
          mkE "A" "unknown_animal" 1 1 0 (mkRat 9 10)])[0]?
      = some (mkE "A" "fox" 0 1 0 (mkRat 1 2)) :=
  c10_resolver_frame 0
    [mkE "A" "fox" 0 1 0 (mkRat 1 2), mkE "A" "unknown_animal" 1 1 0 (mkRat 9 10)]
    0 (mkE "A" "fox" 0 1 0 (mkRat 1 2)) (by decide) (by decide)

/-- C4 (counterexample): in the reconciliation variant the replacement
probability is `valid_species['prob'].max()` — the maximum over the
CONFIDENT rows only — not the maximum over the whole group as the claim
states.  Group: `fox` with prob 1/2 (confident at threshold 0) and
`unknown_animal` with prob 9/10.  The whole-group maximum is 9/10, but the
resolver rewrites the unknown row's prob to 1/2. -/
theorem c4_unknown_resolver_counterexample :
    (infer_unknowns_reconcile 0
        [mkE "A" "fox" 0 1 0 (mkRat 1 2),
          mkE "A" "unknown_animal" 1 1 0 (mkRat 9 10)]).map Row.prob
      = [mkRat 1 2, mkRat 1 2] ∧
    maxProbD (([mkE "A" "fox" 0 1 0 (mkRat 1 2),
        mkE "A" "unknown_animal" 1 1 0 (mkRat 9 10)]).map Row.prob)
      = mkRat 9 10 ∧
    (mkRat 1 2 : ℚ) ≠ mkRat 9 10 :=
  ⟨by decide, by decide, by decide⟩

/-- C4 (amended): for every `(camera_site, event)` group with at least one
confident record, both resolver variants replace every `unknown_animal`
row's class by a most frequent `class_name` among the confident records and
set `expert_updated` to 2 (initial consolidation) resp. 5 (reconciliation);
the replacement `prob` is the maximum over the WHOLE group in the
initial-consolidation variant but the maximum over the CONFIDENT records
only in the reconciliation variant.  Groups without a confident record are
left unchanged. -/
theorem c4_unknown_resolver_amended (thresh : ℚ) (df : List Row) (i : Nat)
    (r : Row) (hi : df[i]? = some r) :
    ∃ r2 r5,
      (refine_unknown_animal_classifications thresh df)[i]? = some r2 ∧
      (infer_unknowns_reconcile thresh df)[i]? = some r5 ∧
      (if r.class_name = "unknown_animal" ∧
          confidentRows thresh (df.filter fun x => eventKey x == eventKey r) ≠ []
        then
          ∃ c p2 p5,
            r2 = { r with class_name := c, prob := p2, expert_updated := 2 } ∧
            r5 = { r with class_name := c, prob := p5, expert_updated := 5 } ∧
            c ∈ (confidentRows thresh
              (df.filter fun x => eventKey x == eventKey r)).map Row.class_name ∧
            (∀ t ∈ (confidentRows thresh
                (df.filter fun x => eventKey x == eventKey r)).map Row.class_name,
              ((confidentRows thresh
                (df.filter fun x => eventKey x == eventKey r)).map
                  Row.class_name).count t ≤
                ((confidentRows thresh
                  (df.filter fun x => eventKey x == eventKey r)).map
                    Row.class_name).count c) ∧
            p2 ∈ (df.filter fun x => eventKey x == eventKey r).map Row.prob ∧
            (∀ q ∈ (df.filter fun x => eventKey x == eventKey r).map Row.prob,
              q ≤ p2) ∧
            p5 ∈ (confidentRows thresh
              (df.filter fun x => eventKey x == eventKey r)).map Row.prob ∧
            (∀ q ∈ (confidentRows thresh
                (df.filter fun x => eventKey x == eventKey r)).map Row.prob,
              q ≤ p5)
        else r2 = r ∧ r5 = r) := by
  refine ⟨resolveRowSpec 2 true thresh df r, resolveRowSpec 5 false thresh df r,
    by rw [refine_getElem, hi, Option.map_some'],
    by rw [infer_getElem, hi, Option.map_some'], ?_⟩
  by_cases hcond : r.class_name = "unknown_animal" ∧
      confidentRows thresh (df.filter fun x => eventKey x == eventKey r) ≠ []
  · rw [if_pos hcond]
    have hbool : (r.class_name == "unknown_animal" &&
        !(confidentRows thresh
          (df.filter fun x => eventKey x == eventKey r)).isEmpty) = true := by
      simp only [Bool.and_eq_true, beq_iff_eq, Bool.not_eq_true',
        List.isEmpty_eq_false]
      exact ⟨hcond.1, hcond.2⟩
    have hgne : (df.filter fun x => eventKey x == eventKey r) ≠ [] := by
      apply List.ne_nil_of_mem (a := r)
      exact List.mem_filter.mpr ⟨List.getElem?_mem hi, by simp⟩
    have hcne := hcond.2
    refine ⟨modeClass ((confidentRows thresh
        (df.filter fun x => eventKey x == eventKey r)).map Row.class_name),
      maxProbD ((df.filter fun x => eventKey x == eventKey r).map Row.prob),
      maxProbD ((confidentRows thresh
        (df.filter fun x => eventKey x == eventKey r)).map Row.prob),
      ?_, ?_, ?_, ?_, ?_, ?_, ?_, ?_⟩
    · simp only [resolveRowSpec]
      rw [if_pos hbool]
      simp
    · simp only [resolveRowSpec]
      rw [if_pos hbool]
      simp
    · exact (modeClass_spec _ (by simpa using hcne)).1
    · exact (modeClass_spec _ (by simpa using hcne)).2
    · exact (maxProbD_spec _ (by simpa using hgne)).1
    · exact (maxProbD_spec _ (by simpa using hgne)).2
    · exact (maxProbD_spec _ (by simpa using hcne)).1
    · exact (maxProbD_spec _ (by simpa using hcne)).2
  · rw [if_neg hcond]
    have hbool : ¬ ((r.class_name == "unknown_animal" &&
        !(confidentRows thresh
          (df.filter fun x => eventKey x == eventKey r)).isEmpty) = true) := by
      simp only [Bool.and_eq_true, beq_iff_eq, Bool.not_eq_true',
        List.isEmpty_eq_false]
      exact hcond
    constructor
    · simp only [resolveRowSpec]
      rw [if_neg hbool]
    · simp only [resolveRowSpec]
      rw [if_neg hbool]

/-- C4 (witness): the amended theorem instantiated on the two-row group of
the counterexample; the unknown row (index 1) is in the confident case. -/
theorem c4_unknown_resolver_witness :
    ∃ r2 r5,
      (refine_unknown_animal_classifications 0
          [mkE "A" "fox" 0 1 0 (mkRat 1 2),
            mkE "A" "unknown_animal" 1 1 0 (mkRat 9 10)])[1]? = some r2 ∧
      (infer_unknowns_reconcile 0
          [mkE "A" "fox" 0 1 0 (mkRat 1 2),
            mkE "A" "unknown_animal" 1 1 0 (mkRat 9 10)])[1]? = some r5 ∧
      (if (mkE "A" "unknown_animal" 1 1 0 (mkRat 9 10)).class_name
            = "unknown_animal" ∧
          confidentRows 0
            (([mkE "A" "fox" 0 1 0 (mkRat 1 2),
              mkE "A" "unknown_animal" 1 1 0 (mkRat 9 10)]).filter
              fun x => eventKey x
                == eventKey (mkE "A" "unknown_animal" 1 1 0 (mkRat 9 10))) ≠ []
        then
          ∃ c p2 p5,
            r2 = { mkE "A" "unknown_animal" 1 1 0 (mkRat 9 10) with
              class_name := c, prob := p2, expert_updated := 2 } ∧
            r5 = { mkE "A" "unknown_animal" 1 1 0 (mkRat 9 10) with
              class_name := c, prob := p5, expert_updated := 5 } ∧
            c ∈ (confidentRows 0
              (([mkE "A" "fox" 0 1 0 (mkRat 1 2),
                mkE "A" "unknown_animal" 1 1 0 (mkRat 9 10)]).filter
                fun x => eventKey x
                  == eventKey (mkE "A" "unknown_animal" 1 1 0
                    (mkRat 9 10)))).map Row.class_name ∧
            (∀ t ∈ (confidentRows 0
                (([mkE "A" "fox" 0 1 0 (mkRat 1 2),
                  mkE "A" "unknown_animal" 1 1 0 (mkRat 9 10)]).filter
                  fun x => eventKey x
                    == eventKey (mkE "A" "unknown_animal" 1 1 0
                      (mkRat 9 10)))).map Row.class_name,
              ((confidentRows 0
                (([mkE "A" "fox" 0 1 0 (mkRat 1 2),
                  mkE "A" "unknown_animal" 1 1 0 (mkRat 9 10)]).filter
                  fun x => eventKey x
                    == eventKey (mkE "A" "unknown_animal" 1 1 0
                      (mkRat 9 10)))).map Row.class_name).count t ≤
                ((confidentRows 0
                  (([mkE "A" "fox" 0 1 0 (mkRat 1 2),
                    mkE "A" "unknown_animal" 1 1 0 (mkRat 9 10)]).filter
                    fun x => eventKey x
                      == eventKey (mkE "A" "unknown_animal" 1 1 0
                        (mkRat 9 10)))).map Row.class_name).count c) ∧
            p2 ∈ (([mkE "A" "fox" 0 1 0 (mkRat 1 2),
              mkE "A" "unknown_animal" 1 1 0 (mkRat 9 10)]).filter
              fun x => eventKey x
                == eventKey (mkE "A" "unknown_animal" 1 1 0
                  (mkRat 9 10))).map Row.prob ∧
            (∀ q ∈ (([mkE "A" "fox" 0 1 0 (mkRat 1 2),
                mkE "A" "unknown_animal" 1 1 0 (mkRat 9 10)]).filter
                fun x => eventKey x
                  == eventKey (mkE "A" "unknown_animal" 1 1 0
                    (mkRat 9 10))).map Row.prob,
              q ≤ p2) ∧
            p5 ∈ (confidentRows 0
              (([mkE "A" "fox" 0 1 0 (mkRat 1 2),
                mkE "A" "unknown_animal" 1 1 0 (mkRat 9 10)]).filter
                fun x => eventKey x
                  == eventKey (mkE "A" "unknown_animal" 1 1 0
                    (mkRat 9 10)))).map Row.prob ∧
            (∀ q ∈ (confidentRows 0
                (([mkE "A" "fox" 0 1 0 (mkRat 1 2),
                  mkE "A" "unknown_animal" 1 1 0 (mkRat 9 10)]).filter
                  fun x => eventKey x
                    == eventKey (mkE "A" "unknown_animal" 1 1 0
                      (mkRat 9 10)))).map Row.prob,
              q ≤ p5)
        else r2 = mkE "A" "unknown_animal" 1 1 0 (mkRat 9 10) ∧
          r5 = mkE "A" "unknown_animal" 1 1 0 (mkRat 9 10)) :=
  c4_unknown_resolver_amended 0
    [mkE "A" "fox" 0 1 0 (mkRat 1 2), mkE "A" "unknown_animal" 1 1 0 (mkRat 9 10)]
    1 (mkE "A" "unknown_animal" 1 1 0 (mkRat 9 10)) (by decide)

/-! ## Lemmas about the Count Aggregator -/

lemma assignCountsSiteGo_fst (df : List Row) (site : String) :
    ∀ (seen : List (String × String × Nat × Nat)) (l : List (Row × Nat)),
      (assignCountsSiteGo df site seen l).map Prod.fst = l.map Prod.fst
  | _, [] => rfl
  | seen, (r, c) :: rest => by
    simp only [assignCountsSiteGo]
    by_cases hs : (r.camera_site == site) = true
    · rw [if_pos hs]
      by_cases hseen : groupKey r ∈ seen
      · rw [if_pos hseen]
        simpa using assignCountsSiteGo_fst df site seen rest
      · rw [if_neg hseen]
        simpa using assignCountsSiteGo_fst df site (groupKey r :: seen) rest
    · rw [if_neg hs]
      simpa using assignCountsSiteGo_fst df site seen rest

lemma groupKey_fst {r : Row} {k : String × String × Nat × Nat}
    (h : groupKey r = k) : r.camera_site = k.1 := by
  rw [← h]; rfl

/-- The per-site group sizes the code reads agree with the global group
sizes, because the site is part of the group key. -/
lemma countKeySite_eq (df : List Row) (k : String × String × Nat × Nat) :
    countKeySite df k.1 k = countKey df k := by
  unfold countKeySite siteRows countKey
  rw [List.filter_filter]
  congr 1
  apply List.filter_congr
  intro r _
  by_cases h : groupKey r = k
  · simp [h, groupKey_fst h]
  · simp [h]

lemma assignCountsSiteGo_find_site (df : List Row) (site : String) :
    ∀ (l : List (Row × Nat)) (seen : List (String × String × Nat × Nat))
      (k : String × String × Nat × Nat), k.1 = site → k ∉ seen →
      (assignCountsSiteGo df site seen l).find? (fun rc => groupKey rc.1 == k)
        = (l.find? (fun rc => groupKey rc.1 == k)).map
            (fun rc => (rc.1, countKeySite df site k))
  | [], _, _, _, _ => rfl
  | (r, c) :: rest, seen, k, hk1, hkseen => by
    simp only [assignCountsSiteGo]
    by_cases hkey : groupKey r = k
    · have hs : (r.camera_site == site) = true := by
        simp [groupKey_fst hkey, hk1]
      have hseen : groupKey r ∉ seen := hkey ▸ hkseen
      rw [if_pos hs, if_neg hseen]
      rw [List.find?_cons_of_pos _ (by simp [hkey]),
        List.find?_cons_of_pos _ (by simp [hkey])]
      simp [hkey]
    · have hfalse : ((fun rc : Row × Nat => groupKey rc.1 == k) (r, c)) = false := by
        simp [hkey]
      by_cases hs : (r.camera_site == site) = true
      · rw [if_pos hs]
        by_cases hseen : groupKey r ∈ seen
        · rw [if_pos hseen]
          rw [List.find?_cons_of_neg _ (by simp [hkey]),
            List.find?_cons_of_neg _ (by simp [hkey])]
          exact assignCountsSiteGo_find_site df site rest seen k hk1 hkseen
        · rw [if_neg hseen]
          rw [List.find?_cons_of_neg _ (by simp [hkey]),
            List.find?_cons_of_neg _ (by simp [hkey])]
          exact assignCountsSiteGo_find_site df site rest (groupKey r :: seen) k
            hk1 (by
              intro hc
              rcases List.mem_cons.mp hc with h' | h'
              · exact hkey h'.symm
              · exact hkseen h')
      · rw [if_neg hs]
        rw [List.find?_cons_of_neg _ (by simp [hkey]),
          List.find?_cons_of_neg _ (by simp [hkey])]
        exact assignCountsSiteGo_find_site df site rest seen k hk1 hkseen

lemma assignCountsSiteGo_find_other (df : List Row) (site : String) :
    ∀ (l : List (Row × Nat)) (seen : List (String × String × Nat × Nat))
      (k : String × String × Nat × Nat), (k.1 ≠ site ∨ k ∈ seen) →
      (assignCountsSiteGo df site seen l).find? (fun rc => groupKey rc.1 == k)
        = l.find? (fun rc => groupKey rc.1 == k)
  | [], _, _, _ => rfl
  | (r, c) :: rest, seen, k, hk => by
    simp only [assignCountsSiteGo]
    by_cases hs : (r.camera_site == site) = true
    · by_cases hseen : groupKey r ∈ seen
      · rw [if_pos hs, if_pos hseen]
        by_cases hkey : groupKey r = k
        · rw [List.find?_cons_of_pos _ (by simp [hkey]),
            List.find?_cons_of_pos _ (by simp [hkey])]
        · rw [List.find?_cons_of_neg _ (by simp [hkey]),
            List.find?_cons_of_neg _ (by simp [hkey])]
          exact assignCountsSiteGo_find_other df site rest seen k hk
      · rw [if_pos hs, if_neg hseen]
        by_cases hkey : groupKey r = k
        · exfalso
          rcases hk with h1 | h2
          · exact h1 (by rw [← groupKey_fst hkey]; exact (eq_of_beq hs).symm ▸ rfl)
          · exact hseen (hkey ▸ h2)
        · rw [List.find?_cons_of_neg _ (by simp [hkey]),
            List.find?_cons_of_neg _ (by simp [hkey])]
          exact assignCountsSiteGo_find_other df site rest (groupKey r :: seen) k
            (by
              rcases hk with h1 | h2
              · exact Or.inl h1
              · exact Or.inr (List.mem_cons_of_mem _ h2))
    · rw [if_neg hs]
      by_cases hkey : groupKey r = k
      · rw [List.find?_cons_of_pos _ (by simp [hkey]),
          List.find?_cons_of_pos _ (by simp [hkey])]
      · rw [List.find?_cons_of_neg _ (by simp [hkey]),
          List.find?_cons_of_neg _ (by simp [hkey])]
        exact assignCountsSiteGo_find_other df site rest seen k hk

lemma foldl_sites_fst (df : List Row) :
    ∀ (sites : List String) (acc : List (Row × Nat)),
      (sites.foldl (fun acc site => assignCountsSiteGo df site [] acc)
        acc).map Prod.fst = acc.map Prod.fst
  | [], _ => rfl
  | s :: rest, acc => by
    simp only [List.foldl_cons]
    rw [foldl_sites_fst df rest (assignCountsSiteGo df s [] acc),
      assignCountsSiteGo_fst]

lemma foldl_sites_find_notmem (df : List Row)
    (k : String × String × Nat × Nat) :
    ∀ (sites : List String) (acc : List (Row × Nat)), k.1 ∉ sites →
      ((sites.foldl (fun acc site => assignCountsSiteGo df site [] acc)
          acc).find? fun rc => groupKey rc.1 == k)
        = acc.find? fun rc => groupKey rc.1 == k
  | [], _, _ => rfl
  | s :: rest, acc, hns => by
    simp only [List.foldl_cons]
    rw [foldl_sites_find_notmem df k rest _
        (fun hc => hns (List.mem_cons_of_mem s hc)),
      assignCountsSiteGo_find_other df s acc [] k
        (Or.inl fun hc => hns (hc ▸ List.mem_cons_self s rest))]

lemma foldl_sites_find_mem (df : List Row) (k : String × String × Nat × Nat)
    (r : Row) :
    ∀ (sites : List String) (acc : List (Row × Nat)), sites.Nodup →
      k.1 ∈ sites →
      (acc.find? fun rc => groupKey rc.1 == k) = some (r, 1) →
      ((sites.foldl (fun acc site => assignCountsSiteGo df site [] acc)
          acc).find? fun rc => groupKey rc.1 == k)
        = some (r, countKey df k)
  | [], _, _, hmem, _ => absurd hmem (List.not_mem_nil _)
  | s :: rest, acc, hnodup, hmem, hacc => by
    simp only [List.foldl_cons]
    by_cases hks : k.1 = s
    · rw [foldl_sites_find_notmem df k rest _
        (fun hc => (List.nodup_cons.mp hnodup).1 (hks ▸ hc))]
      rw [assignCountsSiteGo_find_site df s acc [] k hks (List.not_mem_nil _),
        hacc]
      rw [show countKeySite df s k = countKey df k from
        hks ▸ countKeySite_eq df k]
      rfl
    · have hmem' : k.1 ∈ rest := by
        rcases List.mem_cons.mp hmem with h' | h'
        · exact absurd h' hks
        · exact h'
      refine foldl_sites_find_mem df k r rest _
        (List.nodup_cons.mp hnodup).2 hmem' ?_
      rw [assignCountsSiteGo_find_other df s acc [] k (Or.inl hks)]
      exact hacc

lemma dedupByKeyGo_mem :
    ∀ (l : List (Row × Nat)) (seen : List (String × String × Nat × Nat))
      (rc : Row × Nat), rc ∈ dedupByKeyGo seen l →
      groupKey rc.1 ∉ seen ∧
        l.find? (fun x => groupKey x.1 == groupKey rc.1) = some rc
  | [], _, _, hmem => absurd hmem (List.not_mem_nil _)
  | (r, c) :: rest, seen, rc, hmem => by
    simp only [dedupByKeyGo] at hmem
    by_cases hseen : groupKey r ∈ seen
    · rw [if_pos hseen] at hmem
      obtain ⟨h1, h2⟩ := dedupByKeyGo_mem rest seen rc hmem
      have hne : groupKey r ≠ groupKey rc.1 := fun hc => h1 (hc ▸ hseen)
      exact ⟨h1, by rw [List.find?_cons_of_neg _ (by simp [hne])]; exact h2⟩
    · rw [if_neg hseen] at hmem
      rcases List.mem_cons.mp hmem with rfl | hmem'
      · exact ⟨hseen, by rw [List.find?_cons_of_pos _ (by simp)]⟩
      · obtain ⟨h1, h2⟩ := dedupByKeyGo_mem rest (groupKey r :: seen) rc hmem'
        have hne : groupKey r ≠ groupKey rc.1 :=
          fun hc => h1 (hc ▸ List.mem_cons_self _ _)
        refine ⟨fun hc => h1 (List.mem_cons_of_mem _ hc), ?_⟩
        rw [List.find?_cons_of_neg _ (by simp [hne])]
        exact h2

lemma dedupByKeyGo_keys_nodup :
    ∀ (l : List (Row × Nat)) (seen : List (String × String × Nat × Nat)),
      ((dedupByKeyGo seen l).map fun rc => groupKey rc.1).Nodup
  | [], _ => List.nodup_nil
  | (r, c) :: rest, seen => by
    simp only [dedupByKeyGo]
    by_cases hseen : groupKey r ∈ seen
    · rw [if_pos hseen]
      exact dedupByKeyGo_keys_nodup rest seen
    · rw [if_neg hseen]
      simp only [List.map_cons]
      refine List.nodup_cons.mpr
        ⟨?_, dedupByKeyGo_keys_nodup rest (groupKey r :: seen)⟩
      intro hc
      rcases List.mem_map.mp hc with ⟨rc, hrc, hkey⟩
      exact (dedupByKeyGo_mem rest (groupKey r :: seen) rc hrc).1
        (hkey ▸ List.mem_cons_self _ _)

lemma dedupByKeyGo_covers :
    ∀ (l : List (Row × Nat)) (seen : List (String × String × Nat × Nat))
      (k : String × String × Nat × Nat), k ∉ seen →
      ((∃ x ∈ l, groupKey x.1 = k) ↔
        ∃ rc ∈ dedupByKeyGo seen l, groupKey rc.1 = k)
  | [], _, _, _ => by simp [dedupByKeyGo]
  | (r, c) :: rest, seen, k, hk => by
    simp only [dedupByKeyGo]
    by_cases hseen : groupKey r ∈ seen
    · rw [if_pos hseen]
      rw [← dedupByKeyGo_covers rest seen k hk]
      constructor
      · rintro ⟨x, hx, hxk⟩
        rcases List.mem_cons.mp hx with rfl | hx'
        · exact absurd (hxk ▸ hseen) hk
        · exact ⟨x, hx', hxk⟩
      · rintro ⟨x, hx, hxk⟩
        exact ⟨x, List.mem_cons_of_mem _ hx, hxk⟩
    · rw [if_neg hseen]
      by_cases hrk : groupKey r = k
      · constructor
        · intro _
          exact ⟨(r, c), List.mem_cons_self _ _, hrk⟩
        · intro _
          exact ⟨(r, c), List.mem_cons_self _ _, hrk⟩
      · have hknot : k ∉ groupKey r :: seen := by
          intro hc
          rcases List.mem_cons.mp hc with h' | h'
          · exact hrk h'.symm
          · exact hk h'
        constructor
        · rintro ⟨x, hx, hxk⟩
          rcases List.mem_cons.mp hx with rfl | hx'
          · exact absurd hxk hrk
          · obtain ⟨rc, hrc, hrck⟩ :=
              (dedupByKeyGo_covers rest (groupKey r :: seen) k hknot).mp
                ⟨x, hx', hxk⟩
            exact ⟨rc, List.mem_cons_of_mem _ hrc, hrck⟩
        · rintro ⟨rc, hrc, hrck⟩
          rcases List.mem_cons.mp hrc with rfl | hrc'
          · exact absurd hrck hrk
          · obtain ⟨x, hx, hxk⟩ :=
              (dedupByKeyGo_covers rest (groupKey r :: seen) k hknot).mpr
                ⟨rc, hrc', hrck⟩
            exact ⟨x, List.mem_cons_of_mem _ hx, hxk⟩

/-- C1 (counterexample): the legacy Count Aggregator of
`5_update_output_table.py` groups by `(camera_site, event, timestamp)` only —
no `class_name` — and performs no post-aggregation recheck.  Two rows with
the same site/event/timestamp but different classes (`fox`, `deer`) collapse
into one: the input `(A, deer, 1, 100)` group has one row, the output has
none, contradicting "exactly one row remains per (camera_site, class_name,
event, timestamp) group". -/
theorem c1_count_aggregator_counterexample :
    ((count_animals_per_event5
        [mkE "A" "fox" 100 1 0 1, mkE "A" "deer" 100 1 0 1]).filter
      (fun rc => groupKey rc.1 == ("A", "deer", 1, 100))).length = 0 ∧
    (([mkE "A" "fox" 100 1 0 1, mkE "A" "deer" 100 1 0 1] : List Row).filter
      (fun r => groupKey r == ("A", "deer", 1, 100))).length = 1 :=
  ⟨by decide, by decide⟩

/-- C1 (amended): the `3_update_output_table.py` Count Aggregator satisfies
the claim: for every input table it returns `ok` (its recheck — whose
mismatch branch raises the fatal `SanityCheckError` — never trips), the
output has exactly one row per input `(camera_site, class_name, event,
timestamp)` group (coverage plus nodup of output keys), that row is the
FIRST row of its group in stable input order (`df.find?`), and its count is
the group's size.  The legacy `5_update_output_table.py` variant does not:
it groups without `class_name` and has no recheck (counterexample). -/
theorem c1_count_aggregator_amended (df : List Row) :
    ∃ result,
      count_animals_per_event df = .ok result ∧
      (∀ rc ∈ result,
        df.find? (fun x => groupKey x == groupKey rc.1) = some rc.1 ∧
        rc.2 = countKey df (groupKey rc.1)) ∧
      (result.map fun rc => groupKey rc.1).Nodup ∧
      (∀ k, k ∈ df.map groupKey ↔ k ∈ result.map fun rc => groupKey rc.1) := by
  have hfst :
      ((firstUniques (df.map Row.camera_site)).foldl
        (fun acc site => assignCountsSiteGo df site [] acc)
        (df.map fun r => (r, 1))).map Prod.fst = df := by
    rw [foldl_sites_fst, List.map_map]
    exact List.map_id _
  have hprop : ∀ rc ∈ dedupByKeyGo []
      ((firstUniques (df.map Row.camera_site)).foldl
        (fun acc site => assignCountsSiteGo df site [] acc)
        (df.map fun r => (r, 1))),
      df.find? (fun x => groupKey x == groupKey rc.1) = some rc.1 ∧
        rc.2 = countKey df (groupKey rc.1) := by
    intro rc hrc
    obtain ⟨_, hfind⟩ := dedupByKeyGo_mem _ [] rc hrc
    have hrc_mem : rc ∈ (firstUniques (df.map Row.camera_site)).foldl
        (fun acc site => assignCountsSiteGo df site [] acc)
        (df.map fun r => (r, 1)) := List.mem_of_find?_eq_some hfind
    have hfst_mem : rc.1 ∈ df := by
      rw [← hfst]
      exact List.mem_map_of_mem Prod.fst hrc_mem
    obtain ⟨r0, hr0⟩ : ∃ r0,
        df.find? (fun x => groupKey x == groupKey rc.1) = some r0 := by
      have : (df.find? fun x => groupKey x == groupKey rc.1).isSome := by
        rw [List.find?_isSome]
        exact ⟨rc.1, hfst_mem, by simp⟩
      exact Option.isSome_iff_exists.mp this
    have hr0_key : groupKey r0 = groupKey rc.1 := by
      have := List.find?_some hr0
      simpa using this
    have hinit : ((df.map fun r => (r, 1)).find?
        fun rc' => groupKey rc'.1 == groupKey rc.1) = some (r0, 1) := by
      rw [List.find?_map]
      rw [show ((fun rc' : Row × Nat => groupKey rc'.1 == groupKey rc.1) ∘
        fun r => (r, (1 : Nat))) = fun x => groupKey x == groupKey rc.1
        from rfl]
      rw [hr0]
      rfl
    have hsite_mem :
        (groupKey rc.1).1 ∈ firstUniques (df.map Row.camera_site) := by
      rw [mem_firstUniques]
      rw [← groupKey_fst hr0_key]
      exact List.mem_map_of_mem Row.camera_site
        (List.mem_of_find?_eq_some hr0)
    have hcnt := foldl_sites_find_mem df (groupKey rc.1) r0
      (firstUniques (df.map Row.camera_site)) (df.map fun r => (r, 1))
      (firstUniques_nodup _) hsite_mem hinit
    rw [hfind] at hcnt
    have hrc_eq : rc = (r0, countKey df (groupKey rc.1)) :=
      Option.some.inj hcnt
    constructor
    · rw [hr0, show rc.1 = r0 from congrArg Prod.fst hrc_eq]
    · exact congrArg Prod.snd hrc_eq
  refine ⟨dedupByKeyGo []
      ((firstUniques (df.map Row.camera_site)).foldl
        (fun acc site => assignCountsSiteGo df site [] acc)
        (df.map fun r => (r, 1))), ?_, hprop, dedupByKeyGo_keys_nodup _ [], ?_⟩
  · simp only [count_animals_per_event]
    rw [if_pos (List.all_eq_true.mpr fun rc hrc => by
      rw [(hprop rc hrc).2]; simp)]
  · intro k
    have h1 : k ∈ df.map groupKey ↔ ∃ x ∈ df, groupKey x = k := by
      rw [List.mem_map]
    have h2 : (∃ x ∈ df, groupKey x = k) ↔
        ∃ xc ∈ (firstUniques (df.map Row.camera_site)).foldl
          (fun acc site => assignCountsSiteGo df site [] acc)
          (df.map fun r => (r, 1)), groupKey xc.1 = k := by
      constructor
      · rintro ⟨x, hx, hxk⟩
        rw [← hfst] at hx
        rcases List.mem_map.mp hx with ⟨xc, hxc, hxc1⟩
        exact ⟨xc, hxc, hxc1.symm ▸ hxk⟩
      · rintro ⟨xc, hxc, hxck⟩
        refine ⟨xc.1, ?_, hxck⟩
        rw [← hfst]
        exact List.mem_map_of_mem Prod.fst hxc
    rw [h1, h2, dedupByKeyGo_covers _ [] k (List.not_mem_nil k)]
    rw [List.mem_map]

/-- C1 (witness): the amended theorem at a concrete four-row table whose
rows all share one group key. -/
theorem c1_count_aggregator_witness :
    ∃ result,
      count_animals_per_event
          [mkE "A" "fox" 5 1 0 1, mkE "A" "fox" 5 1 0 1,
            mkE "A" "fox" 5 1 0 1, mkE "A" "fox" 5 1 0 1] = .ok result ∧
      ∀ rc ∈ result,
        rc.2 = countKey
          [mkE "A" "fox" 5 1 0 1, mkE "A" "fox" 5 1 0 1,
            mkE "A" "fox" 5 1 0 1, mkE "A" "fox" 5 1 0 1] (groupKey rc.1) :=
  (c1_count_aggregator_amended
    [mkE "A" "fox" 5 1 0 1, mkE "A" "fox" 5 1 0 1,
      mkE "A" "fox" 5 1 0 1, mkE "A" "fox" 5 1 0 1]).elim
    fun res h => ⟨res, h.1, fun rc hrc => (h.2.1 rc hrc).2⟩

/-- C5: the sum-of-counts invariant FAILS on the
`5_update_output_table.py` aggregator: `df.loc[keep_mask, 'count'] =
grouped['dup_count']` aligns the fresh `0..k-1` index of `grouped` with the
positional row labels of the kept rows, so on three rows (two duplicates at
one timestamp, one more row after them) the second kept row — label 2,
outside `grouped`'s index `{0, 1}` — receives NaN: the output counts are
`[2, NaN]` and their sum is NaN, not 3. -/
theorem c5_count_sum_failing_input :
    (count_animals_per_event5
        [mkE "A" "fox" 100 1 0 1, mkE "A" "fox" 100 1 0 1,
          mkE "A" "fox" 160 1 0 1]).map (fun rc => rc.2) = [some 2, none] ∧
    sumCounts (count_animals_per_event5
        [mkE "A" "fox" 100 1 0 1, mkE "A" "fox" 100 1 0 1,
          mkE "A" "fox" 160 1 0 1]) = none ∧
    ([mkE "A" "fox" 100 1 0 1, mkE "A" "fox" 100 1 0 1,
        mkE "A" "fox" 160 1 0 1] : List Row).length = 3 ∧
    sumCounts (count_animals_per_event5
        [mkE "A" "fox" 100 1 0 1, mkE "A" "fox" 100 1 0 1,
          mkE "A" "fox" 160 1 0 1]) ≠ some 3 :=
  ⟨by decide, by decide, by decide, by decide⟩

/-! ## Lemmas about the CorrectionMap folder scan -/

lemma lookupAssoc_update {K V : Type} [DecidableEq K] :
    ∀ (m : List (K × V)) (k k' : K) (v : V),
      lookupAssoc (updateAssoc m k v) k'
        = if k' = k then some v else lookupAssoc m k'
  | [], k, k', v => by
    simp only [updateAssoc, lookupAssoc]
    by_cases h : k' = k
    · rw [if_pos (h.symm), if_pos h]
    · rw [if_neg (fun hc => h hc.symm), if_neg h]
  | (k₀, v₀) :: rest, k, k', v => by
    simp only [updateAssoc]
    by_cases h0 : k₀ = k
    · rw [if_pos h0]
      simp only [lookupAssoc]
      by_cases h : k' = k
      · rw [if_pos h.symm, if_pos h]
      · rw [if_neg (fun hc => h hc.symm), if_neg h,
          if_neg (fun hc => h (h0 ▸ hc).symm)]
    · rw [if_neg h0]
      simp only [lookupAssoc]
      by_cases h2 : k₀ = k'
      · have hne : ¬ k' = k := fun hc => h0 (h2.trans hc)
        rw [if_pos h2, if_neg hne, if_pos h2]
      · rw [if_neg h2, if_neg h2, lookupAssoc_update rest k k' v]

/-- Invariant of the `scan_animal_folders` fold: every recorded duplicate is
a genuine conflict of the entries seen so far, and every conflicting pair of
seen entries has its key in the duplicate list. -/
lemma scan_go_dups :
    ∀ (es processed : List ScanEntry)
      (m : List ((String × String) × (String × String × String)))
      (d : List DupRecord),
      (∀ k v, lookupAssoc m k = some v →
        ∃ e ∈ processed, scanKey e = k ∧
          v = (e.path, e.camera_site, e.class_name)) →
      (∀ e ∈ processed, (lookupAssoc m (scanKey e)).isSome) →
      (∀ x ∈ d, DupGenuine processed x) →
      (∀ e1 ∈ processed, ∀ e2 ∈ processed, scanKey e1 = scanKey e2 →
        e1.class_name ≠ e2.class_name →
        ∃ x ∈ d, (x.base, x.site) = scanKey e1) →
      (∀ x ∈ (scan_animal_folders_go es m d).2,
        DupGenuine (processed ++ es) x) ∧
      (∀ e1 ∈ processed ++ es, ∀ e2 ∈ processed ++ es,
        scanKey e1 = scanKey e2 → e1.class_name ≠ e2.class_name →
        ∃ x ∈ (scan_animal_folders_go es m d).2, (x.base, x.site) = scanKey e1)
  | [], processed, m, d, _, _, hd, hconf => by
    simp only [scan_animal_folders_go, List.append_nil]
    exact ⟨hd, hconf⟩
  | e :: es, processed, m, d, hm, hcm, hd, hconf => by
    have happ : processed ++ e :: es = (processed ++ [e]) ++ es := by simp
    rw [happ]
    have hstep :
        ∀ (d' : List DupRecord),
          (∀ x ∈ d', DupGenuine (processed ++ [e]) x) →
          (∀ e1 ∈ processed ++ [e], ∀ e2 ∈ processed ++ [e],
            scanKey e1 = scanKey e2 → e1.class_name ≠ e2.class_name →
            ∃ x ∈ d', (x.base, x.site) = scanKey e1) →
          (∀ x ∈ (scan_animal_folders_go es
              (updateAssoc m (scanKey e) (e.path, e.camera_site, e.class_name))
              d').2,
            DupGenuine ((processed ++ [e]) ++ es) x) ∧
          (∀ e1 ∈ (processed ++ [e]) ++ es, ∀ e2 ∈ (processed ++ [e]) ++ es,
            scanKey e1 = scanKey e2 → e1.class_name ≠ e2.class_name →
            ∃ x ∈ (scan_animal_folders_go es
                (updateAssoc m (scanKey e)
                  (e.path, e.camera_site, e.class_name)) d').2,
              (x.base, x.site) = scanKey e1) := by
      intro d' hd' hconf'
      refine scan_go_dups es (processed ++ [e])
        (updateAssoc m (scanKey e) (e.path, e.camera_site, e.class_name)) d'
        ?_ ?_ hd' hconf'
      · intro k v hl
        rw [lookupAssoc_update] at hl
        by_cases hk : k = scanKey e
        · rw [if_pos hk] at hl
          exact ⟨e, List.mem_append_right _ (List.mem_cons_self e []),
            hk.symm, (Option.some.inj hl).symm⟩
        · rw [if_neg hk] at hl
          obtain ⟨e0, he0, hkey, hv⟩ := hm k v hl
          exact ⟨e0, List.mem_append_left _ he0, hkey, hv⟩
      · intro e' he'
        rcases List.mem_append.mp he' with he' | he'
        · rw [lookupAssoc_update]
          by_cases hk : scanKey e' = scanKey e
          · rw [if_pos hk]; rfl
          · rw [if_neg hk]; exact hcm e' he'
        · rcases List.mem_cons.mp he' with rfl | hc
          · rw [lookupAssoc_update, if_pos rfl]; rfl
          · cases hc
    cases hlook : lookupAssoc m (scanKey e) with
    | none =>
      simp only [scan_animal_folders_go, hlook]
      refine hstep d (fun x hx => ?_) (fun e1 he1 e2 he2 hkey hcls => ?_)
      · obtain ⟨a, ha, b, hb, h⟩ := hd x hx
        exact ⟨a, List.mem_append_left _ ha, b, List.mem_append_left _ hb, h⟩
      · rcases List.mem_append.mp he1 with he1' | he1' <;>
          rcases List.mem_append.mp he2 with he2' | he2'
        · exact hconf e1 he1' e2 he2' hkey hcls
        · have he2e : e2 = e := by simpa using he2'
          exfalso
          have := hcm e1 he1'
          rw [hkey, he2e, hlook] at this
          cases this
        · have he1e : e1 = e := by simpa using he1'
          exfalso
          have := hcm e2 he2'
          rw [← hkey, he1e, hlook] at this
          cases this
        · have he1e : e1 = e := by simpa using he1'
          have he2e : e2 = e := by simpa using he2'
          rw [he1e, he2e] at hcls
          exact absurd rfl hcls
    | some v =>
      obtain ⟨p, s, c⟩ := v
      simp only [scan_animal_folders_go, hlook]
      by_cases hcne : c ≠ e.class_name
      · rw [if_pos hcne]
        obtain ⟨e0, he0, he0key, he0v⟩ := hm (scanKey e) (p, s, c) hlook
        have he0path : e0.path = p := by
          have := congrArg (fun t : String × String × String => t.1) he0v
          exact this.symm
        have he0cls : e0.class_name = c := by
          have := congrArg (fun t : String × String × String => t.2.2) he0v
          exact this.symm
        have hnewdup :
            DupGenuine (processed ++ [e])
              ⟨(scanKey e).1, (scanKey e).2, c, e.class_name, p, e.path⟩ := by
          refine ⟨e0, List.mem_append_left _ he0,
            e, List.mem_append_right _ (List.mem_cons_self e []),
            ?_, ?_, ?_, ?_, ?_, ?_, ?_⟩
          · rw [he0key]
          · rfl
          · exact he0cls.symm
          · rfl
          · exact he0path.symm
          · rfl
          · rw [he0cls]; exact hcne
        refine hstep (d ++ [⟨(scanKey e).1, (scanKey e).2, c, e.class_name,
            p, e.path⟩])
          (fun x hx => ?_) (fun e1 he1 e2 he2 hkey hcls => ?_)
        · rcases List.mem_append.mp hx with hx' | hx'
          · obtain ⟨a, ha, b, hb, h⟩ := hd x hx'
            exact ⟨a, List.mem_append_left _ ha, b,
              List.mem_append_left _ hb, h⟩
          · rcases List.mem_cons.mp hx' with rfl | hc
            · exact hnewdup
            · cases hc
        · rcases List.mem_append.mp he1 with he1' | he1' <;>
            rcases List.mem_append.mp he2 with he2' | he2'
          · obtain ⟨x, hx, hxk⟩ := hconf e1 he1' e2 he2' hkey hcls
            exact ⟨x, List.mem_append_left _ hx, hxk⟩
          · have he2e : e2 = e := by simpa using he2'
            refine ⟨⟨(scanKey e).1, (scanKey e).2, c, e.class_name,
              p, e.path⟩,
              List.mem_append_right _ (List.mem_cons_self _ []), ?_⟩
            show ((scanKey e).1, (scanKey e).2) = scanKey e1
            rw [hkey, he2e]
          · have he1e : e1 = e := by simpa using he1'
            refine ⟨⟨(scanKey e).1, (scanKey e).2, c, e.class_name,
              p, e.path⟩,
              List.mem_append_right _ (List.mem_cons_self _ []), ?_⟩
            show ((scanKey e).1, (scanKey e).2) = scanKey e1
            rw [he1e]
          · have he1e : e1 = e := by simpa using he1'
            have he2e : e2 = e := by simpa using he2'
            rw [he1e, he2e] at hcls
            exact absurd rfl hcls
      · rw [if_neg hcne]
        rw [Classical.not_not] at hcne
        obtain ⟨e0, he0, he0key, he0v⟩ := hm (scanKey e) (p, s, c) hlook
        have he0cls : e0.class_name = c := by
          have := congrArg (fun t : String × String × String => t.2.2) he0v
          exact this.symm
        refine hstep d (fun x hx => ?_) (fun e1 he1 e2 he2 hkey hcls => ?_)
        · obtain ⟨a, ha, b, hb, h⟩ := hd x hx
          exact ⟨a, List.mem_append_left _ ha, b, List.mem_append_left _ hb, h⟩
        · rcases List.mem_append.mp he1 with he1' | he1' <;>
            rcases List.mem_append.mp he2 with he2' | he2'
          · obtain ⟨x, hx, hxk⟩ := hconf e1 he1' e2 he2' hkey hcls
            exact ⟨x, hx, hxk⟩
          · have he2e : e2 = e := by simpa using he2'
            have he0e2 : e0.class_name = e2.class_name := by
              rw [he0cls, hcne, he2e]
            have hcls0 : e1.class_name ≠ e0.class_name :=
              fun hcc => hcls (hcc.trans he0e2)
            obtain ⟨x, hx, hxk⟩ := hconf e1 he1' e0 he0
              (by rw [hkey, he2e, ← he0key]) hcls0
            exact ⟨x, hx, hxk⟩
          · have he1e : e1 = e := by simpa using he1'
            have he0e1 : e0.class_name = e1.class_name := by
              rw [he0cls, hcne, he1e]
            have hcls0 : e0.class_name ≠ e2.class_name :=
              fun hcc => hcls (he0e1.symm.trans hcc)
            obtain ⟨x, hx, hxk⟩ := hconf e0 he0 e2 he2'
              (by rw [he0key, ← he1e, hkey]) hcls0
            exact ⟨x, hx, by rw [hxk, he0key, he1e]⟩
          · have he1e : e1 = e := by simpa using he1'
            have he2e : e2 = e := by simpa using he2'
            rw [he1e, he2e] at hcls
            exact absurd rfl hcls

/-- C3 (counterexample): the legacy scan of `5_update_output_table.py`
silently resolves a conflict by keeping the last-scanned entry.  Two entries
with the same `(base_filename, camera_site)` key but different classes
(`deer` then `fox`) produce a mapping holding `fox` — no abort, no
listing — although the claim demands the run abort. -/
theorem c3_scan_counterexample :
    scanKey5 ⟨"siteA", "deer", "IMG_01.JPG", "pA"⟩
      = scanKey5 ⟨"siteA", "fox", "IMG_01.JPG", "pB"⟩ ∧
    ("deer" : String) ≠ "fox" ∧
    scan_animal_folders5
        [⟨"siteA", "deer", "IMG_01.JPG", "pA"⟩,
          ⟨"siteA", "fox", "IMG_01.JPG", "pB"⟩] []
      = [(("IMG_01.JPG", "siteA"), ("pB", "siteA", "fox"))] :=
  ⟨rfl, by decide, rfl⟩

/-- C3 (amended): the `3_update_output_table.py` scan satisfies the claim —
it aborts (raises `SanityCheckError`, embedded as `Except.error`) exactly
when two scanned entries map the same `(base_filename, camera_site)` key to
different class names, and the error payload is a nonempty listing in which
every record is a genuine conflict (key, both candidate classes, both source
paths) and every conflicting key appears.  The legacy
`5_update_output_table.py` scan does not abort (counterexample). -/
theorem c3_scan_conflicts_amended (entries : List ScanEntry) :
    ((∃ e1 ∈ entries, ∃ e2 ∈ entries,
        scanKey e1 = scanKey e2 ∧ e1.class_name ≠ e2.class_name) ↔
      ∃ ds, scan_animal_folders entries = .error ds) ∧
    ∀ ds, scan_animal_folders entries = .error ds →
      ds ≠ [] ∧ (∀ x ∈ ds, DupGenuine entries x) ∧
      (∀ e1 ∈ entries, ∀ e2 ∈ entries, scanKey e1 = scanKey e2 →
        e1.class_name ≠ e2.class_name →
        ∃ x ∈ ds, (x.base, x.site) = scanKey e1) := by
  obtain ⟨hgen, hcomp⟩ := scan_go_dups entries [] [] []
    (fun k v hl => by simp [lookupAssoc] at hl)
    (fun e he => absurd he (List.not_mem_nil e))
    (fun x hx => absurd hx (List.not_mem_nil x))
    (fun e1 he1 => absurd he1 (List.not_mem_nil e1))
  simp only [List.nil_append] at hgen hcomp
  constructor
  · constructor
    · rintro ⟨e1, he1, e2, he2, hk, hc⟩
      obtain ⟨x, hx, _⟩ := hcomp e1 he1 e2 he2 hk hc
      have hne : (scan_animal_folders_go entries [] []).2 ≠ [] :=
        List.ne_nil_of_mem hx
      refine ⟨(scan_animal_folders_go entries [] []).2, ?_⟩
      simp only [scan_animal_folders]
      rw [if_neg (by simpa using hne)]
    · rintro ⟨ds, hds⟩
      simp only [scan_animal_folders] at hds
      by_cases hemp : (scan_animal_folders_go entries [] []).2.isEmpty
      · rw [if_pos hemp] at hds
        cases hds
      · rw [if_neg hemp] at hds
        have hne : (scan_animal_folders_go entries [] []).2 ≠ [] := by
          simpa using hemp
        obtain ⟨x, hx⟩ := List.exists_mem_of_ne_nil _ hne
        obtain ⟨a, ha, b, hb, hka, hkb, _, _, _, _, hne'⟩ := hgen x hx
        exact ⟨a, ha, b, hb, hka.trans hkb.symm, hne'⟩
  · intro ds hds
    simp only [scan_animal_folders] at hds
    by_cases hemp : (scan_animal_folders_go entries [] []).2.isEmpty
    · rw [if_pos hemp] at hds
      cases hds
    · rw [if_neg hemp] at hds
      injection hds with h
      rw [← h]
      exact ⟨by simpa using hemp, hgen, hcomp⟩

/-- C3 (witness): the amended theorem at the concrete two-entry conflict of
Scenario C. -/
theorem c3_scan_conflicts_witness :
    ([⟨"img_01.jpg", "siteA", "deer", "fox", "pA", "pB"⟩] : List DupRecord)
        ≠ [] ∧
    (∀ x ∈ ([⟨"img_01.jpg", "siteA", "deer", "fox", "pA", "pB"⟩] :
        List DupRecord),
      DupGenuine [⟨"siteA", "deer", "IMG_01.JPG", "pA"⟩,
        ⟨"siteA", "fox", "IMG_01.JPG", "pB"⟩] x) ∧
    (∀ e1 ∈ [(⟨"siteA", "deer", "IMG_01.JPG", "pA"⟩ : ScanEntry),
        ⟨"siteA", "fox", "IMG_01.JPG", "pB"⟩],
      ∀ e2 ∈ [(⟨"siteA", "deer", "IMG_01.JPG", "pA"⟩ : ScanEntry),
        ⟨"siteA", "fox", "IMG_01.JPG", "pB"⟩],
      scanKey e1 = scanKey e2 → e1.class_name ≠ e2.class_name →
      ∃ x ∈ ([⟨"img_01.jpg", "siteA", "deer", "fox", "pA", "pB"⟩] :
        List DupRecord), (x.base, x.site) = scanKey e1) :=
  (c3_scan_conflicts_amended
    [⟨"siteA", "deer", "IMG_01.JPG", "pA"⟩,
      ⟨"siteA", "fox", "IMG_01.JPG", "pB"⟩]).2
    [⟨"img_01.jpg", "siteA", "deer", "fox", "pA", "pB"⟩] (by rfl)

/-! ## Lemmas about base filenames and timestamp parsing -/

lemma splitOnChar_ne_nil (c : Char) : ∀ (s : List Char), splitOnChar c s ≠ []
  | [] => by simp [splitOnChar]
  | x :: xs => by
    simp only [splitOnChar]
    by_cases h : x = c
    · rw [if_pos h]; simp
    · rw [if_neg h]
      cases hs : splitOnChar c xs with
      | nil => simp
      | cons hd tl => simp

lemma splitOnChar_not_mem {c : Char} : ∀ {s : List Char}, c ∉ s →
    splitOnChar c s = [s]
  | [], _ => rfl
  | x :: xs, h => by
    have hx : ¬ x = c := fun hc => h (by rw [← hc]; exact List.mem_cons_self x xs)
    have hxs : c ∉ xs := fun hc => h (List.mem_cons_of_mem x hc)
    simp only [splitOnChar]
    rw [if_neg hx, splitOnChar_not_mem hxs]

lemma splitOnChar_append (c : Char) :
    ∀ (a b : List Char),
      splitOnChar c (a ++ c :: b) = splitOnChar c a ++ splitOnChar c b
  | [], b => by
    show splitOnChar c (c :: b) = splitOnChar c [] ++ splitOnChar c b
    simp [splitOnChar]
  | x :: a', b => by
    show splitOnChar c (x :: (a' ++ c :: b))
      = splitOnChar c (x :: a') ++ splitOnChar c b
    simp only [splitOnChar]
    by_cases h : x = c
    · rw [if_pos h, if_pos h, splitOnChar_append c a' b]
      rfl
    · rw [if_neg h, if_neg h, splitOnChar_append c a' b]
      cases hs : splitOnChar c a' with
      | nil => exact absurd hs (splitOnChar_ne_nil c a')
      | cons hd tl => rfl

lemma intercalate_single (c : Char) (h : List Char) :
    List.intercalate [c] [h] = h := by
  simp [List.intercalate]

lemma intercalate_cons (c : Char) (h : List Char) {t : List (List Char)}
    (ht : t ≠ []) :
    List.intercalate [c] (h :: t) = h ++ c :: List.intercalate [c] t := by
  cases t with
  | nil => exact absurd rfl ht
  | cons b t' => simp [List.intercalate, List.intersperse]

lemma intercalate_splitOnChar (c : Char) :
    ∀ (s : List Char), List.intercalate [c] (splitOnChar c s) = s
  | [] => by simp [splitOnChar, List.intercalate]
  | x :: xs => by
    simp only [splitOnChar]
    by_cases h : x = c
    · rw [if_pos h,
        intercalate_cons c [] (splitOnChar_ne_nil c xs),
        intercalate_splitOnChar c xs, h]
      rfl
    · rw [if_neg h]
      cases hs : splitOnChar c xs with
      | nil => exact absurd hs (splitOnChar_ne_nil c xs)
      | cons hd tl =>
        cases tl with
        | nil =>
          rw [intercalate_single]
          have := intercalate_splitOnChar c xs
          rw [hs, intercalate_single] at this
          rw [this]
        | cons b t' =>
          rw [intercalate_cons c (x :: hd) (by simp)]
          have := intercalate_splitOnChar c xs
          rw [hs, intercalate_cons c hd (by simp)] at this
          rw [List.cons_append, this]

/-- C8: the timestamp normaliser accepts `DD/MM/YYYY HH:MM` (first) and
`YYYY-MM-DD HH:MM:SS` (second), but the first format does NOT accept
optional seconds: `"01/02/2020 10:30:45"` — which is exactly the
`'%d/%m/%Y %H:%M:%S'` layout the pipeline itself writes back into the
table — fails both `strptime` patterns and becomes `NaT`, excluding the
record from time-based segmentation. -/
theorem c8_timestamp_format_seconds :
    parseTimestampValue "01/02/2020 10:30" = some ⟨2020, 2, 1, 10, 30, 0⟩ ∧
    parseTimestampValue "2020-02-01 10:30:45"
      = some ⟨2020, 2, 1, 10, 30, 45⟩ ∧
    parseTimestampValue "01/02/2020 10:30:45" = none :=
  ⟨by decide, by decide, by decide⟩

/-- C9 (counterexample): `create_base_filename` strips after the LAST hyphen
of the stem whatever follows it, not only a numeric `-N` detection index:
`"IMG-A.JPG"` (suffix `A`, not a detection index, so the claim demands it be
returned unchanged — as `specBaseFilename` does) is rewritten to
`"IMG.JPG"`. -/
theorem c9_base_filename_counterexample :
    baseFilename "IMG-A.JPG" = "IMG.JPG" ∧
    specBaseFilename ("IMG-A.JPG".data) = "IMG-A.JPG".data ∧
    ("IMG.JPG" : String) ≠ "IMG-A.JPG" :=
  ⟨by decide, by decide, by decide⟩

/-- C9 (amended): for a filename `stem-suffix.ext` (no dots outside the
extension separator, no hyphen in the suffix), `create_base_filename`
removes the whole `-suffix` — REGARDLESS of whether the suffix is a numeric
detection index — giving `stem.ext`; and a filename `stem.ext` whose stem
has no hyphen is returned unchanged. -/
theorem c9_base_filename_amended (stem suffix ext : List Char)
    (h1 : '.' ∉ stem) (h2 : '.' ∉ suffix) (h3 : '.' ∉ ext)
    (h4 : '-' ∉ suffix) :
    create_base_filename (stem ++ '-' :: suffix ++ '.' :: ext)
      = stem ++ '.' :: ext ∧
    ('-' ∉ stem →
      create_base_filename (stem ++ '.' :: ext) = stem ++ '.' :: ext) := by
  have hpre : '.' ∉ stem ++ '-' :: suffix := by
    intro hc
    rcases List.mem_append.mp hc with hc' | hc'
    · exact h1 hc'
    · rcases List.mem_cons.mp hc' with hc'' | hc''
      · cases hc''
      · exact h2 hc''
  constructor
  · have hshape : stem ++ '-' :: suffix ++ '.' :: ext
        = (stem ++ '-' :: suffix) ++ '.' :: ext := by simp
    rw [hshape]
    have hsplit : splitOnChar '.' ((stem ++ '-' :: suffix) ++ '.' :: ext)
        = [stem ++ '-' :: suffix, ext] := by
      rw [splitOnChar_append, splitOnChar_not_mem hpre,
        splitOnChar_not_mem h3]
      rfl
    simp only [create_base_filename, hsplit]
    rw [if_neg (by simp)]
    rw [show ([stem ++ '-' :: suffix, ext] : List (List Char)).dropLast
        = [stem ++ '-' :: suffix] from rfl,
      show ([stem ++ '-' :: suffix, ext] : List (List Char)).getLastD []
        = ext from rfl,
      intercalate_single]
    rw [if_pos (show ((stem ++ '-' :: suffix).contains '-') = true by simp)]
    rw [splitOnChar_append, splitOnChar_not_mem h4, List.dropLast_concat,
      intercalate_splitOnChar]
  · intro h5
    have hsplit2 : splitOnChar '.' (stem ++ '.' :: ext) = [stem, ext] := by
      rw [splitOnChar_append, splitOnChar_not_mem h1,
        splitOnChar_not_mem h3]
      rfl
    simp only [create_base_filename, hsplit2]
    rw [if_neg (by simp)]
    rw [show ([stem, ext] : List (List Char)).dropLast = [stem] from rfl,
      intercalate_single]
    rw [if_neg (show ¬ ((stem.contains '-') = true) by simpa using h5)]

/-- C9 (witness): the amended theorem at `IMG_0001-1.JPG` — the claim's own
example — and at the hyphen-free `IMG_0001.JPG`. -/
theorem c9_base_filename_witness :
    create_base_filename
        ("IMG_0001".data ++ '-' :: "1".data ++ '.' :: "JPG".data)
      = "IMG_0001".data ++ '.' :: "JPG".data ∧
    ('-' ∉ "IMG_0001".data →
      create_base_filename ("IMG_0001".data ++ '.' :: "JPG".data)
        = "IMG_0001".data ++ '.' :: "JPG".data) :=
  c9_base_filename_amended "IMG_0001".data "1".data "JPG".data
    (by decide) (by decide) (by decide) (by decide)

end MewcTable
